import Mathlib

/-
Verification of the access-control and rate-limiting engine of the
cloudflare-redirect-worker repository. The JavaScript sources are embedded
shallowly: JS strings are Lean strings (all strings considered here are in
the Basic Multilingual Plane, where UTF-16 code units coincide with code
points), JS numbers holding 32-bit integers are naturals reduced mod 2^32,
the global rate-limit Map is an insertion-ordered association list, and the
module-level config cache is explicit state threaded through the calls.
-/

set_option maxHeartbeats 1000000

namespace RedirectWorker

/-- UTF-16 code units of a JavaScript string as read by charCodeAt. -/
def charCodes (s : String) : List Nat := s.data.map Char.toNat

/-- JavaScript values that flow through the credential-checking code:
strings, undefined, the duck-typed credential object built by
getCredentials, and a validated array of user/pass string pairs parsed
from a USERS variable. -/
inductive JSVal where
  | str (s : String)
  | undefinedVal
  | obj (user pass : JSVal)
  | arr (entries : List (String × String))
deriving DecidableEq, Repr

/-- Difference accumulator of the constantTimeEqual loop in src/auth.js
after n iterations: seeded with the XOR of the two lengths, then for each
index i < n it ORs in the XOR of the code units at index i, reading 0 at
an out-of-range index, exactly as the source loop does. -/
def ctDiff (a b : List Nat) : Nat → Nat
  | 0 => a.length ^^^ b.length
  | n + 1 => ctDiff a b n ||| (a.getD n 0 ^^^ b.getD n 0)

/-- Embeds constantTimeEqual from src/auth.js applied to two strings:
iterate to the maximum of the two lengths and succeed iff the accumulated
difference flag is zero. -/
def constantTimeEqualCore (a b : String) : Bool :=
  ctDiff (charCodes a) (charCodes b)
    (max (charCodes a).length (charCodes b).length) == 0

/-- Embeds constantTimeEqual from src/auth.js: the typeof guards return
false unless both arguments are strings. -/
def constantTimeEqual (a b : JSVal) : Bool :=
  match a, b with
  | .str x, .str y => constantTimeEqualCore x y
  | _, _ => false

/-- Instrumented embedding of the constantTimeEqual loop: computes the
difference accumulator together with a count of executed iterations. -/
def ctDiffSteps (a b : List Nat) : Nat → Nat × Nat
  | 0 => (a.length ^^^ b.length, 0)
  | n + 1 =>
    let p := ctDiffSteps a b n
    (p.1 ||| (a.getD n 0 ^^^ b.getD n 0), p.2 + 1)

/-- Number of loop iterations constantTimeEqual executes on strings a and
b, according to the instrumented embedding. -/
def ctIterations (a b : String) : Nat :=
  (ctDiffSteps (charCodes a) (charCodes b)
    (max (charCodes a).length (charCodes b).length)).2

/-- Rate-limit window: 10 minutes in milliseconds (src/ratelimit.js). -/
def RATE_LIMIT_WINDOW_MS : Nat := 10 * 60 * 1000

/-- Failure threshold for identified clients (src/ratelimit.js). -/
def MAX_FAILED_ATTEMPTS : Nat := 10

/-- Stricter failure threshold for unknown clients (src/ratelimit.js). -/
def MAX_FAILED_ATTEMPTS_UNKNOWN : Nat := 3

/-- Capacity of the rate-limit table (src/ratelimit.js). -/
def MAX_RATE_LIMIT_KEYS : Nat := 10000

/-- Sanity limit on the Authorization header length (src/ratelimit.js). -/
def MAX_AUTH_HEADER_LENGTH : Nat := 4096

/-- An entry of the rate-limit bucket: { fails, resetAt } in
src/ratelimit.js, with times as absolute milliseconds. -/
structure RateLimitEntry where
  fails : Nat
  resetAt : Nat
deriving DecidableEq, Repr

/-- The RATE_LIMIT_BUCKET JavaScript Map, embedded as an association list
in insertion order: Map.set of a new key appends, Map.set of a present key
(and in-place mutation of a stored entry) replaces at its position,
Map.delete removes the entry, and keys() iterates front to back. -/
abbrev Bucket := List (String × RateLimitEntry)

/-- Map.get: the value stored at a key. -/
def bucketGet (b : Bucket) (k : String) : Option RateLimitEntry :=
  (b.find? (fun p => p.1 == k)).map Prod.snd

/-- Map.delete: removes the entry stored at a key. -/
def bucketDelete : Bucket → String → Bucket
  | [], _ => []
  | p :: rest, k => if p.1 == k then rest else p :: bucketDelete rest k

/-- Map.set: replaces in place when the key is present, appends when it
is absent. -/
def bucketSet : Bucket → String → RateLimitEntry → Bucket
  | [], k, v => [(k, v)]
  | p :: rest, k, v => if p.1 == k then (k, v) :: rest else p :: bucketSet rest k v

/-- makeRateLimitKey from src/ratelimit.js. -/
def makeRateLimitKey (clientId subdomain : String) : String :=
  clientId ++ "::" ++ subdomain

/-- pruneIfExpired from src/ratelimit.js: deletes the entry at the key
when the current time has passed its resetAt. -/
def pruneIfExpired (now : Nat) (k : String) (b : Bucket) : Bucket :=
  match bucketGet b k with
  | some e => if now > e.resetAt then bucketDelete b k else b
  | none => b

/-- evictIfNeeded from src/ratelimit.js: when the bucket has reached
capacity, deletes the first (oldest-inserted) key; an empty Map yields an
undefined first key and an empty string is falsy, so in both of those
cases nothing is deleted. -/
def evictIfNeeded (b : Bucket) : Bucket :=
  if b.length < MAX_RATE_LIMIT_KEYS then b
  else
    match b with
    | [] => b
    | (k, _) :: _ => if k == "" then b else bucketDelete b k

/-- limitFor from src/ratelimit.js. -/
def limitFor (clientId : String) : Nat :=
  if clientId == "unknown" then MAX_FAILED_ATTEMPTS_UNKNOWN else MAX_FAILED_ATTEMPTS

/-- isRateLimited from src/ratelimit.js: prunes the key if expired, then
reports whether a live entry has reached the client's threshold. The
pruned bucket is returned alongside, since the source mutates the shared
Map. -/
def isRateLimited (clientId subdomain : String) (now : Nat) (b : Bucket) :
    Bool × Bucket :=
  let key := makeRateLimitKey clientId subdomain
  let b1 := pruneIfExpired now key b
  match bucketGet b1 key with
  | some e => (decide (e.fails ≥ limitFor clientId), b1)
  | none => (false, b1)

/-- registerFailedAttempt from src/ratelimit.js: prunes the key if
expired; then either increments the live entry in place, or — after
evicting if at capacity — inserts a fresh entry whose window ends
RATE_LIMIT_WINDOW_MS later. The source creates the fresh entry with
fails = 0 and then runs fails += 1 on it, so it is stored with fails = 1. -/
def registerFailedAttempt (clientId subdomain : String) (now : Nat) (b : Bucket) :
    Bucket :=
  let key := makeRateLimitKey clientId subdomain
  let b1 := pruneIfExpired now key b
  match bucketGet b1 key with
  | some e => bucketSet b1 key { e with fails := e.fails + 1 }
  | none =>
    let b2 := evictIfNeeded b1
    bucketSet b2 key { fails := 1, resetAt := now + RATE_LIMIT_WINDOW_MS }

/-- clearFailures from src/ratelimit.js. -/
def clearFailures (clientId subdomain : String) (b : Bucket) : Bucket :=
  bucketDelete b (makeRateLimitKey clientId subdomain)

/-- remainingWindowSeconds from src/ratelimit.js: ceiling of the remaining
milliseconds over 1000, or 0 without an entry (Nat subtraction plays the
role of Math.max(0, ...)). -/
def remainingWindowSeconds (clientId subdomain : String) (now : Nat) (b : Bucket) :
    Nat :=
  match bucketGet b (makeRateLimitKey clientId subdomain) with
  | none => 0
  | some e => (e.resetAt - now + 999) / 1000

/-- Registers n consecutive failed attempts, all at the same time. -/
def registerN (clientId subdomain : String) (now : Nat) : Nat → Bucket → Bucket
  | 0, b => b
  | n + 1, b => registerN clientId subdomain now n
      (registerFailedAttempt clientId subdomain now b)

/-- Well-formed bucket contents: every key was built by makeRateLimitKey
and is in particular nonempty. -/
def bucketKeysNonempty (b : Bucket) : Prop :=
  ∀ p ∈ b, p.1 ≠ ""

/-- JavaScript String.prototype.startsWith on code units. -/
def jsStartsWith (s pre : String) : Bool := pre.data.isPrefixOf s.data

/-- JavaScript String.prototype.slice(n) on code units. -/
def jsDrop (s : String) (n : Nat) : String := String.mk (s.data.drop n)

/-- JavaScript String.prototype.trim: strips leading and trailing
whitespace. -/
def jsTrim (s : String) : String :=
  String.mk
    (((s.data.dropWhile Char.isWhitespace).reverse.dropWhile
      Char.isWhitespace).reverse)

/-- ASCII lower-casing of one character, the fragment of
String.prototype.toLowerCase exercised by this development. -/
def asciiLowerChar (c : Char) : Char :=
  if 'A' ≤ c ∧ c ≤ 'Z' then Char.ofNat (c.toNat + 32) else c

/-- JavaScript String.prototype.toLowerCase restricted to ASCII. -/
def jsToLower (s : String) : String := String.mk (s.data.map asciiLowerChar)

/-- ASCII upper-casing of one character, the fragment of
String.prototype.toUpperCase exercised by this development. -/
def asciiUpperChar (c : Char) : Char :=
  if 'a' ≤ c ∧ c ≤ 'z' then Char.ofNat (c.toNat - 32) else c

/-- JavaScript String.prototype.toUpperCase restricted to ASCII. -/
def jsToUpper (s : String) : String := String.mk (s.data.map asciiUpperChar)

/-- Value of one base64 alphabet character. -/
def b64Val (c : Char) : Option Nat :=
  if 'A' ≤ c ∧ c ≤ 'Z' then some (c.toNat - 65)
  else if 'a' ≤ c ∧ c ≤ 'z' then some (c.toNat - 71)
  else if '0' ≤ c ∧ c ≤ '9' then some (c.toNat + 4)
  else if c = '+' then some 62
  else if c = '/' then some 63
  else none

/-- Standard base64 decoding of a character list into bytes, processing
four characters (24 bits) at a time and accepting padding only at the
end. -/
def base64DecodeChars : List Char → Option (List Nat)
  | [] => some []
  | c1 :: c2 :: c3 :: c4 :: rest =>
    match b64Val c1, b64Val c2 with
    | some v1, some v2 =>
      if c3 = '=' then
        if c4 = '=' ∧ rest = [] then some [v1 * 4 + v2 / 16] else none
      else
        match b64Val c3 with
        | some v3 =>
          if c4 = '=' then
            if rest = [] then some [v1 * 4 + v2 / 16, v2 % 16 * 16 + v3 / 4]
            else none
          else
            match b64Val c4, base64DecodeChars rest with
            | some v4, some tl =>
              some ((v1 * 4 + v2 / 16) :: (v2 % 16 * 16 + v3 / 4) ::
                (v3 % 4 * 64 + v4) :: tl)
            | _, _ => none
        | none => none
    | _, _ => none
  | _ => none

/-- Models base64Decode from src/base64.js. The source delegates to the
platform (Buffer.from(b64, 'base64') followed by a UTF-8 read); this
embedding performs strict RFC 4648 base64 decoding — every input this
development evaluates it on is valid base64 whose bytes are ASCII, where
the platform routine agrees — and reads the bytes back as characters. -/
def base64Decode (b64String : String) : Option String :=
  (base64DecodeChars b64String.data).map
    (fun bytes => String.mk (bytes.map Char.ofNat))

/-- isNonEmpty from src/auth.js: true only for strings whose trimmed form
is nonempty. -/
def isNonEmpty (value : JSVal) : Bool :=
  match value with
  | .str s => decide (0 < (jsTrim s).length)
  | _ => false

/-- checkBasicAuth from src/auth.js: requires the Basic scheme, decodes
the payload, splits it at the first colon, and compares both halves with
constantTimeEqual against the expected user and the expected pass. An
empty header string is falsy, matching the !authorizationHeader guard. -/
def checkBasicAuth (authorizationHeader : String)
    (expectedUser expectedPass : JSVal) : Bool :=
  if authorizationHeader = "" then false
  else if jsStartsWith authorizationHeader "Basic " = false then false
  else
    match base64Decode (jsTrim (jsDrop authorizationHeader 6)) with
    | none => false
    | some decoded =>
      match decoded.data.findIdx? (fun c => c == ':') with
      | none => false
      | some idx =>
        let providedUser := String.mk (decoded.data.take idx)
        let providedPass := String.mk (decoded.data.drop (idx + 1))
        constantTimeEqual (.str providedUser) expectedUser &&
          constantTimeEqual (.str providedPass) expectedPass

/-- An incoming request, reduced to the fields the worker reads: the URL
protocol, hostname and path, the HTTP method, and the Authorization and
CF-Connecting-IP headers (none when the header is absent). -/
structure Req where
  protocol : String
  hostname : String
  path : String
  method : String
  authorization : Option String
  cfConnectingIp : Option String
deriving DecidableEq, Repr

/-- A response, reduced to body, status and header list. The JavaScript
header objects are embedded as ordered key/value lists built exactly as
the source builds them. -/
structure Resp where
  body : String
  status : Nat
  headers : List (String × String)
deriving DecidableEq, Repr

/-- respond from src/utils.js. -/
def respond (body : String) (status : Nat) (headers : List (String × String)) :
    Resp :=
  ⟨body, status, headers⟩

/-- getClientIdFromCloudflare from src/utils.js: a missing, empty (falsy)
or over-long CF-Connecting-IP collapses to the "unknown" sentinel. -/
def getClientIdFromCloudflare (request : Req) : String :=
  match request.cfConnectingIp with
  | none => "unknown"
  | some ip => if ip = "" ∨ ip.length > 64 then "unknown" else ip

/-- Base security header set from src/security-headers.js. -/
def securityHeadersBase : List (String × String) :=
  [("X-Content-Type-Options", "nosniff"),
   ("X-Frame-Options", "DENY"),
   ("Referrer-Policy", "no-referrer"),
   ("Permissions-Policy", "geolocation=(), microphone=(), camera=()"),
   ("Cross-Origin-Opener-Policy", "same-origin"),
   ("Cross-Origin-Embedder-Policy", "require-corp"),
   ("Cross-Origin-Resource-Policy", "same-origin"),
   ("Strict-Transport-Security", "max-age=31536000; includeSubDomains; preload"),
   ("X-Robots-Tag", "noindex, nofollow, noarchive"),
   ("Cache-Control", "no-store")]

/-- securityHeaders from src/security-headers.js: the base set spread
together with extra entries (later entries override on read). -/
def securityHeaders (extra : List (String × String)) : List (String × String) :=
  securityHeadersBase ++ extra

/-- authChallengeHeaders from src/security-headers.js. -/
def authChallengeHeaders : List (String × String) :=
  securityHeaders
    [("WWW-Authenticate", "Basic realm=\"Secure Redirect\", charset=\"UTF-8\"")]

/-- rateLimitRetryHeaders from src/ratelimit.js. -/
def rateLimitRetryHeaders (clientId subdomain : String) (now : Nat) (b : Bucket) :
    List (String × String) :=
  securityHeaders
    [("Retry-After", toString (remainingWindowSeconds clientId subdomain now b))]

/-- The hasValid computation at the top of authorizeProtectedSubdomain in
src/index.js: an array is valid when nonempty with every entry's user and
pass nonempty; otherwise the object's user and pass fields are tested. In
JavaScript reading .user of a string value yields undefined, which
isNonEmpty rejects; getCredentials never produces a bare undefined
spec. -/
def hasValidCredentials (expected : JSVal) : Bool :=
  match expected with
  | .arr entries =>
    decide (0 < entries.length) &&
      entries.all (fun e => isNonEmpty (.str e.1) && isNonEmpty (.str e.2))
  | .obj u p => isNonEmpty u && isNonEmpty p
  | .str _ => false
  | .undefinedVal => false

/-- authorizeProtectedSubdomain from src/index.js, with the credentials
already resolved by getCredentials supplied as `expected`. The source
passes only two arguments to the three-parameter checkBasicAuth, so the
spec lands in expectedUser and expectedPass becomes undefined. Returns the
error response (none on success) and the updated rate-limit bucket. -/
def authorizeProtectedSubdomain (request : Req) (subdomain : String)
    (expected : JSVal) (now : Nat) (b : Bucket) : Option Resp × Bucket :=
  if hasValidCredentials expected = false then
    (some (respond "Not authorized" 401 authChallengeHeaders), b)
  else
    let clientId := getClientIdFromCloudflare request
    let rl := isRateLimited clientId subdomain now b
    if rl.1 then
      (some (respond "Too many requests" 429
        (rateLimitRetryHeaders clientId subdomain now rl.2)), rl.2)
    else
      let authHeader := request.authorization.getD ""
      if authHeader.length > MAX_AUTH_HEADER_LENGTH then
        (some (respond "Not authorized" 401 authChallengeHeaders),
          registerFailedAttempt clientId subdomain now rl.2)
      else if checkBasicAuth authHeader expected .undefinedVal = false then
        (some (respond "Not authorized" 401 authChallengeHeaders),
          registerFailedAttempt clientId subdomain now rl.2)
      else
        (none, clearFailures clientId subdomain rl.2)

/-- A worker environment: a partial map from variable name to the bound
string value (none when the binding is absent). -/
abbrev Env := String → Option String

/-- JavaScript truthiness of a possibly-absent string value: false for
undefined and for the empty string. -/
def jsTruthyOpt (v : Option String) : Bool :=
  match v with
  | none => false
  | some s => decide (s ≠ "")

/-- A possibly-absent string value as a JavaScript value. -/
def jsValOfOpt : Option String → JSVal
  | some s => .str s
  | none => .undefinedVal

/-- The JavaScript expression x || y on a possibly-absent string x:
yields x when truthy and y (possibly undefined) otherwise. -/
def jsOr (x y : Option String) : JSVal :=
  if jsTruthyOpt x then jsValOfOpt x else jsValOfOpt y

/-- The canonical environment key for a subdomain, from src/index.js:
upper-cased with dots replaced by underscores. -/
def subdomainEnvKey (subdomain : String) : String :=
  String.mk ((jsToUpper subdomain).data.map (fun c => if c = '.' then '_' else c))

/-- getRedirectTarget from src/index.js. -/
def getRedirectTarget (subdomain : String) (env : Env) : Option String :=
  env ("LINK_" ++ subdomainEnvKey subdomain)

/-- getCredentials from src/index.js. JSON.parse composed with the array
shape validation is platform behavior, abstracted as the parameter
jsonUsers: jsonUsers v = some entries exactly when the string v parses as
an array of objects whose user and pass fields are all strings, in which
case the source returns that array verbatim; every other outcome of the
try block falls through to the single-pair shape, whose fields fall back
from USER_/PASS_ to the global fallbacks under JavaScript truthiness. -/
def getCredentials (jsonUsers : String → Option (List (String × String)))
    (subdomain : String) (env : Env) : JSVal :=
  let nk := subdomainEnvKey subdomain
  let single : JSVal :=
    .obj (jsOr (env ("USER_" ++ nk)) (env "FALLBACK_USER"))
      (jsOr (env ("PASS_" ++ nk)) (env "FALLBACK_PASS"))
  if jsTruthyOpt (env ("USERS_" ++ nk)) then
    match jsonUsers ((env ("USERS_" ++ nk)).getD "") with
    | some entries => .arr entries
    | none => single
  else single

/-- The concrete environment of the claim-C10 scenario: per-tenant
credentials for the tenant "single" explicitly set to empty strings,
with nonempty global fallback credentials. -/
def envSingleEmptyCreds : Env := fun k =>
  if k = "USER_SINGLE" then some ""
  else if k = "PASS_SINGLE" then some ""
  else if k = "FALLBACK_USER" then some "fallback"
  else if k = "FALLBACK_PASS" then some "fallbackpw"
  else none

/-- JavaScript String.prototype.endsWith on code units. -/
def jsEndsWith (s suf : String) : Bool := suf.data.isSuffixOf s.data

/-- Whether pat occurs as a contiguous run inside l. -/
def listHasSub (pat : List Char) : List Char → Bool
  | [] => pat.isEmpty
  | c :: rest => pat.isPrefixOf (c :: rest) || listHasSub pat rest

/-- Substring containment, as used by String.prototype.includes. -/
def strHasSub (s pat : String) : Bool := listHasSub pat.data s.data

/-- String.prototype.split while keeping empty pieces, specialised to the
comma separator. -/
def splitCommaChars : List Char → List (List Char)
  | [] => [[]]
  | c :: rest =>
    let r := splitCommaChars rest
    if c = ',' then [] :: r
    else
      match r with
      | [] => [[c]]
      | h :: t => (c :: h) :: t

/-- value.split(",") from src/host.js. -/
def jsSplitComma (s : String) : List String := (splitCommaChars s.data).map String.mk

/-- s.replace of all whitespace runs by nothing, from src/host.js. -/
def stripWhitespace (s : String) : String :=
  String.mk (s.data.filter (fun c => !c.isWhitespace))

/-- normalized.split with keeping empty pieces, specialised to the dot
separator, as used by the punycode block of validateAndNormalizeSuffix. -/
def splitDotChars : List Char → List (List Char)
  | [] => [[]]
  | c :: rest =>
    let r := splitDotChars rest
    if c = '.' then [] :: r
    else
      match r with
      | [] => [[c]]
      | h :: t => (c :: h) :: t

/-- normalizedParts.join with the dot separator. -/
def joinDot : List (List Char) → List Char
  | [] => []
  | [p] => p
  | p :: q :: t => p ++ '.' :: joinDot (q :: t)

/-- One label of the punycode block: an empty part passes through (the
`if (!part) return part` guard), an all-ASCII part needs no conversion and
maps to itself, and a part with non-ASCII characters is converted through
the platform URL parser — abstracted as the parameter toAscii, exactly as
JSON.parse is abstracted for getCredentials: toAscii part = some label
when `new URL` succeeds and yields that first hostname label, and none
when it throws, which the source rethrows as InvalidSuffix. -/
def punycodeLabel (toAscii : String → Option String) (part : String) :
    Option String :=
  if part = "" then some part
  else if part.data.any (fun c => 127 < c.toNat) then toAscii part
  else some part

/-- parts.map over punycodeLabel, with a throw on any label aborting the
whole conversion. -/
def mapPunyLabels (toAscii : String → Option String) :
    List (List Char) → Option (List (List Char))
  | [] => some []
  | p :: rest =>
    match punycodeLabel toAscii (String.mk p), mapPunyLabels toAscii rest with
    | some q, some qs => some (q.data :: qs)
    | _, _ => none

/-- The whole punycode block of validateAndNormalizeSuffix: split on
dots, convert each label, join with dots again. -/
def punycodeConvert (toAscii : String → Option String) (normalized : String) :
    Option String :=
  (mapPunyLabels toAscii (splitDotChars normalized.data)).map
    (fun parts => String.mk (joinDot parts))

/-- validateAndNormalizeSuffix from src/host.js, parameterized by the
platform URL parser's per-label punycode conversion toAscii (see
punycodeLabel). Thrown errors are embedded as none. The "..", ".-", "-."
and character-set checks run on the converted string, as in the source. -/
def validateAndNormalizeSuffix (toAscii : String → Option String)
    (suffix : String) : Option String :=
  if suffix = "" then none
  else
    let normalized := jsToLower (jsTrim suffix)
    if normalized = "" then none
    else if normalized.data.contains ':' then
      if jsStartsWith normalized "[" && jsEndsWith normalized "]" then
        some normalized
      else none
    else
      match punycodeConvert toAscii normalized with
      | none => none
      | some normalized2 =>
        if strHasSub normalized2 ".." || strHasSub normalized2 ".-" ||
            strHasSub normalized2 "-." then none
        else if (normalized2.data.all (fun c => c = '.' ∨ c = '-' ∨
            ('a' ≤ c ∧ c ≤ 'z') ∨ ('0' ≤ c ∧ c ≤ '9'))) = false then none
        else
          let normalized3 :=
            if jsStartsWith normalized2 "." then normalized2
            else "." ++ normalized2
          if jsStartsWith normalized3 ".-" || jsEndsWith normalized3 "-." ||
              jsEndsWith normalized3 "." then none
          else some normalized3

/-- parseCommaList from src/host.js: split on commas, strip embedded
whitespace, drop empty tokens, then validate each token, skipping (with a
warning in the source) the ones validateAndNormalizeSuffix throws on. The
absent binding is embedded as the empty string, which is equally falsy. -/
def parseCommaList (toAscii : String → Option String) (value : String) :
    List String :=
  if value = "" then []
  else
    (((jsSplitComma value).map stripWhitespace).filter
      (fun s => s ≠ "")).filterMap (validateAndNormalizeSuffix toAscii)

/-- parseSimpleCommaList from src/host.js: split, strip whitespace, drop
empty tokens, no validation or normalization. -/
def parseSimpleCommaList (value : String) : List String :=
  if value = "" then []
  else
    ((jsSplitComma value).map stripWhitespace).filter (fun s => s ≠ "")

/-- hostIsAllowed from src/host.js. -/
def hostIsAllowed (hostname : String) (suffixes : List String) : Bool :=
  if suffixes.length = 0 then true
  else suffixes.any (fun suffix => jsEndsWith hostname suffix)

/-- extractSubdomain from src/host.js, in the branch where the caller
already passes the parsed suffix array: the portion of the hostname before
the first matching suffix, with one trailing dot stripped. -/
def extractSubdomain (hostname : String) (suffixes : List String) : String :=
  match suffixes.find? (fun suffix => jsEndsWith hostname suffix) with
  | some suffix =>
    let sub := String.mk (hostname.data.take (hostname.length - suffix.length))
    if jsEndsWith sub "." then String.mk (sub.data.take (sub.length - 1)) else sub
  | none => ""

/-- One step of the rolling configuration hash. The source computes
((h << 5) - h) + charCode under JavaScript 32-bit signed semantics, with
h & h truncating to int32: two hash results are equal as JavaScript
numbers exactly when the residues modulo 2^32 computed here are equal,
because ToInt32 both respects and is determined by the residue. -/
def hashStep (h : Nat) (c : Char) : Nat := (31 * h + c.toNat) % 4294967296

/-- getConfigHash from src/index.js: the rolling hash of the two raw
configuration strings joined by a pipe (absent bindings read as ""). -/
def getConfigHash (rawAllowedSuffixes rawProtectedSubdomains : String) : Nat :=
  (rawAllowedSuffixes ++ "|" ++ rawProtectedSubdomains).data.foldl hashStep 0

/-- The parsed configuration held by the cache. The source stores the
protected subdomains as a Set built from parseSimpleCommaList; the set is
embedded as the underlying list, whose membership test Set.has mirrors. -/
structure CachedConfig where
  allowedHostSuffixes : List String
  protectedSubdomains : List String
deriving DecidableEq, Repr

/-- The module-level cells configCache and lastConfigHash of src/index.js,
as explicit state. -/
structure ConfigState where
  configCache : Option CachedConfig
  lastConfigHash : Option Nat
deriving DecidableEq, Repr

/-- The configuration object getCachedConfig builds on a cache miss. -/
def parseConfig (toAscii : String → Option String)
    (rawAllowedSuffixes rawProtectedSubdomains : String) : CachedConfig :=
  ⟨parseCommaList toAscii rawAllowedSuffixes,
    parseSimpleCommaList rawProtectedSubdomains⟩

/-- getCachedConfig from src/index.js: recompute and replace the cache
when there is no cached value or the stored hash differs from the current
one; otherwise return the stored value unchanged. -/
def getCachedConfig (toAscii : String → Option String)
    (rawAllowedSuffixes rawProtectedSubdomains : String)
    (st : ConfigState) : CachedConfig × ConfigState :=
  let currentHash := getConfigHash rawAllowedSuffixes rawProtectedSubdomains
  if st.configCache = none ∨ st.lastConfigHash ≠ some currentHash then
    let cfg := parseConfig toAscii rawAllowedSuffixes rawProtectedSubdomains
    (cfg, ⟨some cfg, some currentHash⟩)
  else
    (st.configCache.getD ⟨[], []⟩, st)

/-- invalidateConfigCache from src/index.js: clears both cells. -/
def invalidateConfigCache : ConfigState := ⟨none, none⟩

/-- Headers.set inside setHeaders: replaces an existing key in place or
appends a new one. -/
def headersSet : List (String × String) → String → String → List (String × String)
  | [], k, v => [(k, v)]
  | p :: rest, k, v => if p.1 == k then (k, v) :: rest else p :: headersSet rest k v

/-- setHeaders from src/utils.js: merges the given headers into the
response's headers. -/
def setHeaders (response : Resp) (headers : List (String × String)) : Resp :=
  ⟨response.body, response.status,
    headers.foldl (fun acc kv => headersSet acc kv.1 kv.2) response.headers⟩

/-- Response.redirect: an empty body carrying a Location header. -/
def redirectResp (target : String) (status : Nat) : Resp :=
  ⟨"", status, [("Location", target)]⟩

/-- enforceHttps from src/index.js: redirect http to https with 301,
serializing the URL with its protocol swapped. -/
def enforceHttps (request : Req) : Option Resp :=
  if request.protocol = "http:" then
    some (redirectResp ("https://" ++ request.hostname ++ request.path) 301)
  else none

/-- validateMethod from src/index.js: only GET and HEAD pass. -/
def validateMethod (method : String) : Option Resp :=
  if jsToUpper method ≠ "GET" ∧ jsToUpper method ≠ "HEAD" then
    some (respond "Method Not Allowed" 405
      (securityHeaders [("Allow", "GET, HEAD")]))
  else none

/-- resolveSubdomain from src/index.js: a 404 for hostnames outside the
allowed suffixes, the extracted subdomain otherwise. -/
def resolveSubdomain (hostname : String) (allowedHostSuffixes : List String) :
    Except Resp String :=
  if hostIsAllowed hostname allowedHostSuffixes = false then
    .error (respond "Not found" 404 (securityHeaders []))
  else .ok (extractSubdomain hostname allowedHostSuffixes)

/-- handleRedirect from src/index.js: 302 with security headers when a
target is configured, 404 otherwise. -/
def handleRedirect (targetUrl : Option String) : Resp :=
  if jsTruthyOpt targetUrl then
    setHeaders (redirectResp (targetUrl.getD "") 302) (securityHeaders [])
  else respond "Not found" 404 (securityHeaders [])

/-- The fetch entry point of src/index.js, with the module-level config
cache and the rate-limit bucket threaded as explicit state, Date.now
supplied as now, and the platform URL parser and JSON.parse abstracted as
toAscii and jsonUsers. -/
def fetchWorker (toAscii : String → Option String)
    (jsonUsers : String → Option (List (String × String)))
    (request : Req) (env : Env) (cst : ConfigState) (b : Bucket) (now : Nat) :
    Resp × ConfigState × Bucket :=
  match enforceHttps request with
  | some resp => (resp, cst, b)
  | none =>
    match validateMethod request.method with
    | some resp => (resp, cst, b)
    | none =>
      let cfgPair := getCachedConfig toAscii
        ((env "ALLOWED_HOST_SUFFIXES").getD "")
        ((env "PROTECTED_SUBDOMAINS").getD "") cst
      let hostname := jsToLower request.hostname
      match resolveSubdomain hostname cfgPair.1.allowedHostSuffixes with
      | .error resp => (resp, cfgPair.2, b)
      | .ok subdomain =>
        let targetUrl := getRedirectTarget subdomain env
        let isProtected := cfgPair.1.protectedSubdomains.contains subdomain
        if isProtected && !(jsTruthyOpt targetUrl) then
          (respond "Not found" 404 (securityHeaders []), cfgPair.2, b)
        else if isProtected then
          match authorizeProtectedSubdomain request subdomain
            (getCredentials jsonUsers subdomain env) now b with
          | (some resp, b2) => (resp, cfgPair.2, b2)
          | (none, b2) => (handleRedirect targetUrl, cfgPair.2, b2)
        else (handleRedirect targetUrl, cfgPair.2, b)

/-- The concrete environment of the claim-C9 scenario: the tenant
"missing" is protected but has no LINK_MISSING redirect target. -/
def envC9 : Env := fun k =>
  if k = "ALLOWED_HOST_SUFFIXES" then some ".example.com"
  else if k = "PROTECTED_SUBDOMAINS" then some "missing"
  else none

/-- The platform URL parser's punycode conversion at the single label the
C5 counterexample consults, modelled from the repository's host test,
which expects validateAndNormalizeSuffix applied to the name
muenchen-with-umlaut dot de to yield a name starting with ".xn--". -/
def urlToAsciiSample : String → Option String := fun part =>
  if part = "münchen" then some "xn--mnchen-3ya" else none

-- ### Theorems

theorem charCodes_length (s : String) : (charCodes s).length = s.length := by
  rw [charCodes, List.length_map]
  rfl

theorem char_toNat_injective : Function.Injective Char.toNat := by
  intro c d h
  have := congrArg Char.ofNat h
  rwa [Char.ofNat_toNat, Char.ofNat_toNat] at this

theorem charCodes_injective : Function.Injective charCodes := by
  intro a b h
  have hdata : a.data = b.data :=
    (List.map_injective_iff.mpr char_toNat_injective) h
  cases a; cases b; exact congrArg String.mk hdata

theorem nat_or_eq_zero_iff (m n : Nat) : m ||| n = 0 ↔ m = 0 ∧ n = 0 := by
  constructor
  · intro h
    have hb : ∀ i, (m ||| n).testBit i = false := by
      intro i
      rw [h]
      exact Nat.zero_testBit i
    constructor
    · apply Nat.zero_of_testBit_eq_false
      intro i
      have hi := hb i
      rw [Nat.testBit_or] at hi
      exact (Bool.or_eq_false_iff.mp hi).1
    · apply Nat.zero_of_testBit_eq_false
      intro i
      have hi := hb i
      rw [Nat.testBit_or] at hi
      exact (Bool.or_eq_false_iff.mp hi).2
  · rintro ⟨rfl, rfl⟩
    rfl

theorem ctDiff_eq_zero_iff (a b : List Nat) (n : Nat) :
    ctDiff a b n = 0 ↔ (a.length = b.length ∧ ∀ i < n, a.getD i 0 = b.getD i 0) := by
  induction n with
  | zero =>
    simp [ctDiff, Nat.xor_eq_zero]
  | succ n ih =>
    rw [ctDiff]
    rw [nat_or_eq_zero_iff, ih, Nat.xor_eq_zero]
    constructor
    · rintro ⟨⟨hlen, hall⟩, hn⟩
      refine ⟨hlen, ?_⟩
      intro i hi
      rcases Nat.lt_succ_iff_lt_or_eq.mp hi with h | h
      · exact hall i h
      · subst h; exact hn
    · rintro ⟨hlen, hall⟩
      exact ⟨⟨hlen, fun i hi => hall i (Nat.lt_succ_of_lt hi)⟩,
        hall n (Nat.lt_succ_self n)⟩

theorem constantTimeEqualCore_eq_true_iff (a b : String) :
    constantTimeEqualCore a b = true ↔ a = b := by
  rw [constantTimeEqualCore, beq_iff_eq, ctDiff_eq_zero_iff]
  constructor
  · rintro ⟨hlen, hall⟩
    apply charCodes_injective
    apply List.ext_getElem hlen
    intro i h1 h2
    have hget := hall i (by omega)
    rwa [List.getD_eq_getElem _ _ h1, List.getD_eq_getElem _ _ h2] at hget
  · rintro rfl
    exact ⟨rfl, fun i _ => rfl⟩

/-- Claim C7: constantTimeEqual decides string equality — it is true
exactly on identical string inputs, it is commutative and reflexive, and
it returns false whenever either argument is not a string. -/
theorem C7_constantTimeEqual_decides_equality :
    (∀ a b : String, constantTimeEqual (.str a) (.str b) = true ↔ a = b) ∧
    (∀ v w : JSVal, constantTimeEqual v w = constantTimeEqual w v) ∧
    (∀ a : String, constantTimeEqual (.str a) (.str a) = true) ∧
    (∀ v w : JSVal, (∀ s : String, v ≠ .str s) → constantTimeEqual v w = false) ∧
    (∀ v w : JSVal, (∀ s : String, w ≠ .str s) → constantTimeEqual v w = false) := by
  have hstr : ∀ a b : String,
      constantTimeEqual (.str a) (.str b) = true ↔ a = b := by
    intro a b
    simpa [constantTimeEqual] using constantTimeEqualCore_eq_true_iff a b
  have hdec : ∀ a b : String, constantTimeEqual (.str a) (.str b) = decide (a = b) := by
    intro a b
    by_cases hab : a = b
    · subst hab
      simp [(hstr a a).mpr rfl]
    · rw [decide_eq_false hab]
      cases h : constantTimeEqual (.str a) (.str b)
      · rfl
      · exact absurd ((hstr a b).mp h) hab
  refine ⟨hstr, ?_, ?_, ?_, ?_⟩
  · intro v w
    cases v <;> cases w <;> try rfl
    case str.str x y =>
      rw [hdec, hdec, decide_eq_decide]
      exact eq_comm
  · intro a
    exact (hstr a a).mpr rfl
  · intro v w hv
    cases v with
    | str u => exact absurd rfl (hv u)
    | undefinedVal => cases w <;> rfl
    | obj u p => cases w <;> rfl
    | arr l => cases w <;> rfl
  · intro v w hw
    cases w with
    | str s => exact absurd rfl (hw s)
    | undefinedVal => cases v <;> rfl
    | obj u p => cases v <;> rfl
    | arr l => cases v <;> rfl

/-- Witness for claim C7 at concrete inputs. -/
theorem C7_witness :
    constantTimeEqual (.str "abc") (.str "abc") = true ∧
    constantTimeEqual .undefinedVal (.str "abc") = false :=
  ⟨(C7_constantTimeEqual_decides_equality.1 "abc" "abc").mpr rfl,
   C7_constantTimeEqual_decides_equality.2.2.2.1 .undefinedVal (.str "abc")
     (fun _ h => JSVal.noConfusion h)⟩

theorem ctDiffSteps_count (a b : List Nat) (n : Nat) :
    (ctDiffSteps a b n).2 = n := by
  induction n with
  | zero => rfl
  | succ n ih => simp [ctDiffSteps, ih]

theorem ctDiffSteps_fst (a b : List Nat) (n : Nat) :
    (ctDiffSteps a b n).1 = ctDiff a b n := by
  induction n with
  | zero => rfl
  | succ n ih => simp [ctDiffSteps, ctDiff, ih]

/-- Claim C8: the comparison loop of constantTimeEqual executes exactly
max(len a, len b) iterations; the iteration count depends only on that
maximum, never on the contents of the strings or the position of a
mismatch; and the instrumented loop computes the same difference flag as
the uninstrumented one, so the count instruments the real loop. -/
theorem C8_constant_time_iteration_count :
    (∀ a b : String, ctIterations a b = max a.length b.length) ∧
    (∀ a b c d : String, max a.length b.length = max c.length d.length →
      ctIterations a b = ctIterations c d) ∧
    (∀ a b : String, constantTimeEqualCore a b =
      ((ctDiffSteps (charCodes a) (charCodes b)
        (max (charCodes a).length (charCodes b).length)).1 == 0)) := by
  have hcount : ∀ a b : String, ctIterations a b = max a.length b.length := by
    intro a b
    rw [ctIterations, ctDiffSteps_count, charCodes_length, charCodes_length]
  refine ⟨hcount, ?_, ?_⟩
  · intro a b c d h
    rw [hcount, hcount, h]
  · intro a b
    rw [constantTimeEqualCore, ctDiffSteps_fst]

/-- Witness for claim C8 at concrete inputs. -/
theorem C8_witness :
    ctIterations "ab" "x" = ctIterations "y" "cd" :=
  C8_constant_time_iteration_count.2.1 "ab" "x" "y" "cd" (by decide)

theorem bucketGet_eq_none_iff (b : Bucket) (k : String) :
    bucketGet b k = none ↔ ∀ p ∈ b, p.1 ≠ k := by
  simp [bucketGet, List.find?_eq_none]

theorem bucketGet_cons_of_ne (p : String × RateLimitEntry) (rest : Bucket)
    (k : String) (hp : p.1 ≠ k) :
    bucketGet (p :: rest) k = bucketGet rest k := by
  rw [bucketGet, bucketGet, List.find?_cons_of_neg]
  simpa using hp

theorem bucketGet_bucketSet_self (b : Bucket) (k : String) (v : RateLimitEntry) :
    bucketGet (bucketSet b k v) k = some v := by
  induction b with
  | nil => simp [bucketSet, bucketGet]
  | cons p rest ih =>
    by_cases hp : p.1 = k
    · simp [bucketSet, hp, bucketGet]
    · rw [bucketSet, if_neg (by simpa using hp)]
      rw [bucketGet_cons_of_ne p _ k hp]
      exact ih

theorem bucketSet_eq_append (b : Bucket) (k : String) (v : RateLimitEntry)
    (h : bucketGet b k = none) : bucketSet b k v = b ++ [(k, v)] := by
  induction b with
  | nil => rfl
  | cons p rest ih =>
    have hp : p.1 ≠ k := (bucketGet_eq_none_iff _ _).mp h p (by simp)
    have hrest : bucketGet rest k = none := by
      rw [bucketGet_eq_none_iff]
      intro q hq
      exact (bucketGet_eq_none_iff _ _).mp h q (by simp [hq])
    rw [bucketSet, if_neg (by simpa using hp), ih hrest, List.cons_append]

theorem bucketSet_length_of_get_some (b : Bucket) (k : String) (v e : RateLimitEntry)
    (h : bucketGet b k = some e) : (bucketSet b k v).length = b.length := by
  induction b with
  | nil => simp [bucketGet] at h
  | cons p rest ih =>
    by_cases hp : p.1 = k
    · simp [bucketSet, hp]
    · have hrest : bucketGet rest k = some e := by
        rwa [bucketGet_cons_of_ne p _ k hp] at h
      rw [bucketSet, if_neg (by simpa using hp)]
      simp [ih hrest]

theorem bucketDelete_sublist (b : Bucket) (k : String) :
    (bucketDelete b k).Sublist b := by
  induction b with
  | nil => simp [bucketDelete]
  | cons p rest ih =>
    by_cases hp : p.1 = k
    · simp only [bucketDelete, beq_iff_eq, hp, if_true]
      exact List.sublist_cons_self p rest
    · simp only [bucketDelete, beq_iff_eq, hp, if_false]
      exact ih.cons₂ p

theorem bucketDelete_length_le (b : Bucket) (k : String) :
    (bucketDelete b k).length ≤ b.length :=
  (bucketDelete_sublist b k).length_le

theorem pruneIfExpired_sublist (now : Nat) (k : String) (b : Bucket) :
    (pruneIfExpired now k b).Sublist b := by
  unfold pruneIfExpired
  cases bucketGet b k with
  | none => exact List.Sublist.refl b
  | some e =>
    dsimp only
    split
    · exact bucketDelete_sublist b k
    · exact List.Sublist.refl b

theorem bucketGet_none_of_sublist {b1 b2 : Bucket} (hs : b1.Sublist b2)
    (k : String) (h : bucketGet b2 k = none) : bucketGet b1 k = none := by
  rw [bucketGet_eq_none_iff] at h ⊢
  exact fun p hp => h p (hs.mem hp)

theorem bucketKeysNonempty_of_sublist {b1 b2 : Bucket} (hs : b1.Sublist b2)
    (h : bucketKeysNonempty b2) : bucketKeysNonempty b1 :=
  fun p hp => h p (hs.mem hp)

theorem bucketGet_bucketDelete_of_nodup (b : Bucket) (k : String)
    (h : (b.map Prod.fst).Nodup) : bucketGet (bucketDelete b k) k = none := by
  induction b with
  | nil => rfl
  | cons p rest ih =>
    rw [List.map_cons, List.nodup_cons] at h
    by_cases hp : p.1 = k
    · simp only [bucketDelete, beq_iff_eq, hp, if_true]
      rw [bucketGet_eq_none_iff]
      intro q hq hqk
      exact h.1 (by rw [hp, ← hqk]; exact List.mem_map_of_mem Prod.fst hq)
    · simp only [bucketDelete, beq_iff_eq, hp, if_false]
      have hrest := ih h.2
      rw [bucketGet_eq_none_iff] at hrest ⊢
      intro q hq
      rcases List.mem_cons.mp hq with rfl | hq2
      · exact hp
      · exact hrest q hq2

theorem register_from_absent (clientId subdomain : String) (t : Nat) (b : Bucket)
    (h : bucketGet b (makeRateLimitKey clientId subdomain) = none) :
    bucketGet (registerFailedAttempt clientId subdomain t b)
        (makeRateLimitKey clientId subdomain) =
      some ⟨1, t + RATE_LIMIT_WINDOW_MS⟩ := by
  have hprune : pruneIfExpired t (makeRateLimitKey clientId subdomain) b = b := by
    simp [pruneIfExpired, h]
  have hevict : bucketGet (evictIfNeeded b) (makeRateLimitKey clientId subdomain)
      = none := by
    unfold evictIfNeeded
    split
    · exact h
    · cases b with
      | nil => exact h
      | cons p rest =>
        dsimp only
        split
        · exact h
        · exact bucketGet_none_of_sublist (bucketDelete_sublist _ _) _ h
  simp [registerFailedAttempt, hprune, h, bucketGet_bucketSet_self]

theorem register_step (clientId subdomain : String) (t : Nat) (b : Bucket)
    (e : RateLimitEntry)
    (h : bucketGet b (makeRateLimitKey clientId subdomain) = some e)
    (hlive : ¬ t > e.resetAt) :
    bucketGet (registerFailedAttempt clientId subdomain t b)
        (makeRateLimitKey clientId subdomain) =
      some ⟨e.fails + 1, e.resetAt⟩ := by
  have hprune : pruneIfExpired t (makeRateLimitKey clientId subdomain) b = b := by
    simp [pruneIfExpired, h, hlive]
  simp [registerFailedAttempt, hprune, h, bucketGet_bucketSet_self]

theorem registerN_from_entry (clientId subdomain : String) (t : Nat) (n : Nat) :
    ∀ (b : Bucket) (k0 : Nat),
      bucketGet b (makeRateLimitKey clientId subdomain) =
        some ⟨k0, t + RATE_LIMIT_WINDOW_MS⟩ →
      bucketGet (registerN clientId subdomain t n b)
          (makeRateLimitKey clientId subdomain) =
        some ⟨k0 + n, t + RATE_LIMIT_WINDOW_MS⟩ := by
  induction n with
  | zero => intro b k0 h; simpa [registerN] using h
  | succ n ih =>
    intro b k0 h
    have hstep := register_step clientId subdomain t b _ h
      (by show ¬ t > t + RATE_LIMIT_WINDOW_MS; omega)
    have hn := ih (registerFailedAttempt clientId subdomain t b) (k0 + 1) hstep
    rw [registerN, hn, Nat.add_assoc, Nat.add_comm 1 n]

theorem registerN_from_absent (clientId subdomain : String) (t : Nat) (b : Bucket)
    (n : Nat) (hn : 1 ≤ n)
    (h : bucketGet b (makeRateLimitKey clientId subdomain) = none) :
    bucketGet (registerN clientId subdomain t n b)
        (makeRateLimitKey clientId subdomain) =
      some ⟨n, t + RATE_LIMIT_WINDOW_MS⟩ := by
  obtain ⟨m, rfl⟩ : ∃ m, n = m + 1 := ⟨n - 1, by omega⟩
  rw [registerN]
  have h1 := register_from_absent clientId subdomain t b h
  have h2 := registerN_from_entry clientId subdomain t m _ 1 h1
  rw [h2, Nat.add_comm 1 m]

theorem isRateLimited_of_entry (clientId subdomain : String) (t : Nat) (b : Bucket)
    (e : RateLimitEntry)
    (h : bucketGet b (makeRateLimitKey clientId subdomain) = some e)
    (hlive : ¬ t > e.resetAt) :
    (isRateLimited clientId subdomain t b).1 =
      decide (e.fails ≥ limitFor clientId) := by
  have hprune : pruneIfExpired t (makeRateLimitKey clientId subdomain) b = b := by
    simp [pruneIfExpired, h, hlive]
  simp [isRateLimited, hprune, h]

theorem isRateLimited_of_absent (clientId subdomain : String) (t : Nat) (b : Bucket)
    (h : bucketGet b (makeRateLimitKey clientId subdomain) = none) :
    (isRateLimited clientId subdomain t b).1 = false := by
  have hprune : pruneIfExpired t (makeRateLimitKey clientId subdomain) b = b := by
    simp [pruneIfExpired, h]
  simp [isRateLimited, hprune, h]

theorem limitFor_pos (clientId : String) : 1 ≤ limitFor clientId := by
  unfold limitFor MAX_FAILED_ATTEMPTS MAX_FAILED_ATTEMPTS_UNKNOWN
  split <;> omega

/-- Claim C3: starting from a bucket with no entry for the key, registering
exactly limitFor(client) failures within the window makes the next
isRateLimited check true; registering one fewer leaves it false;
clearFailures makes the next check false from any well-formed bucket; and
the unknown-client threshold (3) is strictly below every identified
client's threshold (10). -/
theorem C3_rate_limit_threshold :
    ∀ (clientId subdomain : String) (t : Nat) (b : Bucket),
      bucketGet b (makeRateLimitKey clientId subdomain) = none →
      ((isRateLimited clientId subdomain t
          (registerN clientId subdomain t (limitFor clientId) b)).1 = true ∧
       (isRateLimited clientId subdomain t
          (registerN clientId subdomain t (limitFor clientId - 1) b)).1 = false ∧
       (∀ (b2 : Bucket) (t2 : Nat), (b2.map Prod.fst).Nodup →
          (isRateLimited clientId subdomain t2
            (clearFailures clientId subdomain b2)).1 = false) ∧
       (∀ c : String, c ≠ "unknown" → limitFor "unknown" < limitFor c)) := by
  intro clientId subdomain t b h
  have hpos := limitFor_pos clientId
  refine ⟨?_, ?_, ?_, ?_⟩
  · have hget := registerN_from_absent clientId subdomain t b (limitFor clientId)
      hpos h
    rw [isRateLimited_of_entry clientId subdomain t _ _ hget
      (by show ¬ t > t + RATE_LIMIT_WINDOW_MS; omega)]
    simp
  · cases hn : limitFor clientId - 1 with
    | zero =>
      rw [registerN]
      exact isRateLimited_of_absent clientId subdomain t b h
    | succ m =>
      have hget := registerN_from_absent clientId subdomain t b (m + 1)
        (by omega) h
      rw [isRateLimited_of_entry clientId subdomain t _ _ hget
        (by show ¬ t > t + RATE_LIMIT_WINDOW_MS; omega)]
      simp only [decide_eq_false_iff_not]
      show ¬ m + 1 ≥ limitFor clientId
      omega
  · intro b2 t2 hnodup
    exact isRateLimited_of_absent clientId subdomain t2 _
      (bucketGet_bucketDelete_of_nodup b2 _ hnodup)
  · intro c hc
    unfold limitFor MAX_FAILED_ATTEMPTS MAX_FAILED_ATTEMPTS_UNKNOWN
    simp [hc]

/-- Witness for claim C3 at concrete inputs. -/
theorem C3_witness :
    (isRateLimited "unknown" "admin" 0
      (registerN "unknown" "admin" 0 (limitFor "unknown") [])).1 = true ∧
    (isRateLimited "unknown" "admin" 7
      (clearFailures "unknown" "admin"
        [("unknown::admin", ⟨5, 100⟩)])).1 = false := by
  have h := C3_rate_limit_threshold "unknown" "admin" 0 [] rfl
  exact ⟨h.1, h.2.2.1 [("unknown::admin", ⟨5, 100⟩)] 7 (by simp)⟩

theorem pruneIfExpired_length_le (now : Nat) (k : String) (b : Bucket) :
    (pruneIfExpired now k b).length ≤ b.length :=
  (pruneIfExpired_sublist now k b).length_le

theorem registerFailedAttempt_eq_of_some
    (clientId subdomain : String) (t : Nat) (b : Bucket) (e : RateLimitEntry)
    (h : bucketGet (pruneIfExpired t (makeRateLimitKey clientId subdomain) b)
      (makeRateLimitKey clientId subdomain) = some e) :
    registerFailedAttempt clientId subdomain t b =
      bucketSet (pruneIfExpired t (makeRateLimitKey clientId subdomain) b)
        (makeRateLimitKey clientId subdomain) ⟨e.fails + 1, e.resetAt⟩ := by
  simp [registerFailedAttempt, h]

theorem registerFailedAttempt_eq_of_none
    (clientId subdomain : String) (t : Nat) (b : Bucket)
    (h : bucketGet (pruneIfExpired t (makeRateLimitKey clientId subdomain) b)
      (makeRateLimitKey clientId subdomain) = none) :
    registerFailedAttempt clientId subdomain t b =
      bucketSet
        (evictIfNeeded (pruneIfExpired t (makeRateLimitKey clientId subdomain) b))
        (makeRateLimitKey clientId subdomain)
        ⟨1, t + RATE_LIMIT_WINDOW_MS⟩ := by
  simp [registerFailedAttempt, h]

theorem isRateLimited_snd (clientId subdomain : String) (t : Nat) (b : Bucket) :
    (isRateLimited clientId subdomain t b).2 =
      pruneIfExpired t (makeRateLimitKey clientId subdomain) b := by
  rw [isRateLimited]
  cases bucketGet (pruneIfExpired t (makeRateLimitKey clientId subdomain) b)
      (makeRateLimitKey clientId subdomain) <;> rfl

/-- Claim C6 part one: each rate-limit operation preserves the capacity
bound, given that all stored keys are nonempty. -/
theorem rateLimit_capacity_preserved
    (clientId subdomain : String) (t : Nat) (b : Bucket)
    (hwf : bucketKeysNonempty b) (hlen : b.length ≤ MAX_RATE_LIMIT_KEYS) :
    (registerFailedAttempt clientId subdomain t b).length ≤ MAX_RATE_LIMIT_KEYS ∧
    (isRateLimited clientId subdomain t b).2.length ≤ MAX_RATE_LIMIT_KEYS ∧
    (clearFailures clientId subdomain b).length ≤ MAX_RATE_LIMIT_KEYS := by
  have hb1len : (pruneIfExpired t (makeRateLimitKey clientId subdomain) b).length ≤
      MAX_RATE_LIMIT_KEYS :=
    le_trans (pruneIfExpired_length_le t _ b) hlen
  have hb1wf : bucketKeysNonempty
      (pruneIfExpired t (makeRateLimitKey clientId subdomain) b) :=
    bucketKeysNonempty_of_sublist (pruneIfExpired_sublist t _ b) hwf
  refine ⟨?_, ?_, ?_⟩
  · cases hget : bucketGet (pruneIfExpired t (makeRateLimitKey clientId subdomain) b)
        (makeRateLimitKey clientId subdomain) with
    | some e =>
      rw [registerFailedAttempt_eq_of_some clientId subdomain t b e hget]
      rw [bucketSet_length_of_get_some _ _ _ e hget]
      exact hb1len
    | none =>
      rw [registerFailedAttempt_eq_of_none clientId subdomain t b hget]
      by_cases hfull :
          (pruneIfExpired t (makeRateLimitKey clientId subdomain) b).length <
            MAX_RATE_LIMIT_KEYS
      · have hev : evictIfNeeded (pruneIfExpired t (makeRateLimitKey clientId
            subdomain) b) = pruneIfExpired t (makeRateLimitKey clientId subdomain) b := by
          unfold evictIfNeeded
          rw [if_pos hfull]
        rw [hev, bucketSet_eq_append _ _ _ hget, List.length_append,
          List.length_singleton]
        omega
      · cases hb : pruneIfExpired t (makeRateLimitKey clientId subdomain) b with
        | nil =>
          rw [hb] at hfull
          simp [MAX_RATE_LIMIT_KEYS] at hfull
        | cons p rest =>
          rw [hb] at hget hb1len hb1wf hfull
          have hpne : p.1 ≠ "" := hb1wf p (by simp)
          have hev : evictIfNeeded (p :: rest) = rest := by
            unfold evictIfNeeded
            rw [if_neg hfull]
            simp [hpne, bucketDelete]
          have hgetrest : bucketGet rest (makeRateLimitKey clientId subdomain)
              = none :=
            bucketGet_none_of_sublist (List.sublist_cons_self p rest) _ hget
          rw [hev, bucketSet_eq_append rest _ _ hgetrest, List.length_append,
            List.length_singleton]
          simp only [List.length_cons] at hb1len
          omega
  · rw [isRateLimited_snd]
    exact hb1len
  · exact le_trans (bucketDelete_length_le b _) hlen

/-- Claim C6: the rate-limit table never exceeds its capacity of 10,000
keys — every operation preserves the bound — and registering a failure for
an absent key on a full table evicts exactly the oldest-inserted entry and
appends the new one, leaving the size at capacity. -/
theorem C6_capacity_and_eviction :
    (∀ (clientId subdomain : String) (t : Nat) (b : Bucket),
      bucketKeysNonempty b → b.length ≤ MAX_RATE_LIMIT_KEYS →
      (registerFailedAttempt clientId subdomain t b).length ≤ MAX_RATE_LIMIT_KEYS ∧
      (isRateLimited clientId subdomain t b).2.length ≤ MAX_RATE_LIMIT_KEYS ∧
      (clearFailures clientId subdomain b).length ≤ MAX_RATE_LIMIT_KEYS) ∧
    (∀ (clientId subdomain : String) (t : Nat) (b : Bucket),
      bucketKeysNonempty b → b.length = MAX_RATE_LIMIT_KEYS →
      bucketGet b (makeRateLimitKey clientId subdomain) = none →
      registerFailedAttempt clientId subdomain t b =
        b.tail ++ [(makeRateLimitKey clientId subdomain,
          ⟨1, t + RATE_LIMIT_WINDOW_MS⟩)] ∧
      (registerFailedAttempt clientId subdomain t b).length =
        MAX_RATE_LIMIT_KEYS) := by
  constructor
  · exact fun clientId subdomain t b hwf hlen =>
      rateLimit_capacity_preserved clientId subdomain t b hwf hlen
  · intro clientId subdomain t b hwf hlen hget
    cases b with
    | nil => simp [MAX_RATE_LIMIT_KEYS] at hlen
    | cons p rest =>
      have hprune : pruneIfExpired t (makeRateLimitKey clientId subdomain)
          (p :: rest) = p :: rest := by
        simp [pruneIfExpired, hget]
      have hpne : p.1 ≠ "" := hwf p (by simp)
      have hnotlt : ¬ (p :: rest).length < MAX_RATE_LIMIT_KEYS := by omega
      have hev : evictIfNeeded (p :: rest) = rest := by
        unfold evictIfNeeded
        rw [if_neg hnotlt]
        simp [hpne, bucketDelete]
      have hgetrest : bucketGet rest (makeRateLimitKey clientId subdomain) = none :=
        bucketGet_none_of_sublist (List.sublist_cons_self p rest) _ hget
      have hreg : registerFailedAttempt clientId subdomain t (p :: rest) =
          rest ++ [(makeRateLimitKey clientId subdomain,
            ⟨1, t + RATE_LIMIT_WINDOW_MS⟩)] := by
        rw [registerFailedAttempt_eq_of_none clientId subdomain t (p :: rest)
          (by rw [hprune]; exact hget)]
        rw [hprune, hev, bucketSet_eq_append rest _ _ hgetrest]
      refine ⟨by simpa using hreg, ?_⟩
      rw [hreg, List.length_append, List.length_singleton]
      simp only [List.length_cons] at hlen
      omega

/-- Witness for claim C6 at concrete inputs: a full table of ten thousand
entries, then one registration for a fresh key. -/
theorem C6_witness :
    (registerFailedAttempt "1.2.3.4" "admin" 0
      (List.replicate MAX_RATE_LIMIT_KEYS ("old::key", ⟨2, 50⟩))).length =
      MAX_RATE_LIMIT_KEYS ∧
    (clearFailures "1.2.3.4" "admin" []).length ≤ MAX_RATE_LIMIT_KEYS := by
  have hwf : bucketKeysNonempty
      (List.replicate MAX_RATE_LIMIT_KEYS (("old::key", ⟨2, 50⟩) :
        String × RateLimitEntry)) := by
    intro p hp
    rw [List.eq_of_mem_replicate hp]
    intro hcon
    exact absurd hcon (by decide)
  have hlen : (List.replicate MAX_RATE_LIMIT_KEYS (("old::key", ⟨2, 50⟩) :
      String × RateLimitEntry)).length = MAX_RATE_LIMIT_KEYS := by
    simp
  have hget : bucketGet
      (List.replicate MAX_RATE_LIMIT_KEYS (("old::key", ⟨2, 50⟩) :
        String × RateLimitEntry)) (makeRateLimitKey "1.2.3.4" "admin") = none := by
    rw [bucketGet_eq_none_iff]
    intro p hp
    rw [List.eq_of_mem_replicate hp]
    intro hcon
    exact absurd hcon (by decide)
  refine ⟨(C6_capacity_and_eviction.2 "1.2.3.4" "admin" 0 _ hwf hlen hget).2, ?_⟩
  exact (C6_capacity_and_eviction.1 "1.2.3.4" "admin" 0 [] (by intro p hp; cases hp)
    (by simp [MAX_RATE_LIMIT_KEYS])).2.2

theorem constantTimeEqual_not_string_right (u : String) (e : JSVal)
    (h : ∀ s : String, e ≠ .str s) : constantTimeEqual (.str u) e = false := by
  cases e with
  | str s => exact absurd rfl (h s)
  | undefinedVal => rfl
  | obj a b => rfl
  | arr l => rfl

theorem checkBasicAuth_expected_not_string (header : String) (e1 e2 : JSVal)
    (h1 : ∀ s : String, e1 ≠ .str s) :
    checkBasicAuth header e1 e2 = false := by
  rw [checkBasicAuth]
  split
  · rfl
  · split
    · rfl
    · cases base64Decode (jsTrim (jsDrop header 6)) with
      | none => rfl
      | some decoded =>
        dsimp only
        cases decoded.data.findIdx? (fun c => c == ':') with
        | none => rfl
        | some idx =>
          dsimp only
          rw [constantTimeEqual_not_string_right _ e1 h1, Bool.false_and]

/-- Claim C1 (code bug): src/index.js passes the resolved CredentialSpec
as the second of checkBasicAuth's three parameters, so the spec value
lands in expectedUser and expectedPass is undefined; the invoked
authentication check therefore returns false for every header and every
list-shaped or pair-shaped spec. In particular the multi-user spec with
entries (a,1) and (b,2) rejects the valid pair a:1 (header "Basic YTox" —
the claim requires it to authenticate), and the full
authorizeProtectedSubdomain call answers 401 and records a failed
attempt. -/
theorem C1_auth_check_arity_mismatch :
    (∀ (header : String) (entries : List (String × String)),
      checkBasicAuth header (.arr entries) .undefinedVal = false) ∧
    (∀ (header : String) (u p : JSVal),
      checkBasicAuth header (.obj u p) .undefinedVal = false) ∧
    checkBasicAuth "Basic YTox" (.arr [("a", "1"), ("b", "2")]) .undefinedVal = false ∧
    authorizeProtectedSubdomain
      ⟨"https:", "multi.example.com", "/", "GET", some "Basic YTox",
        some "1.2.3.4"⟩
      "multi" (.arr [("a", "1"), ("b", "2")]) 0 [] =
    (some (respond "Not authorized" 401 authChallengeHeaders),
      [("1.2.3.4::multi", ⟨1, RATE_LIMIT_WINDOW_MS⟩)]) := by
  refine ⟨?_, ?_, by decide, by decide⟩
  · intro header entries
    exact checkBasicAuth_expected_not_string header _ .undefinedVal
      (fun s h => JSVal.noConfusion h)
  · intro header u p
    exact checkBasicAuth_expected_not_string header _ .undefinedVal
      (fun s h => JSVal.noConfusion h)

/-- Claim C2: a protected tenant whose resolved CredentialSpec is not
configured — a single pair with an empty or whitespace-only user or pass,
an empty list, or a list containing an entry with an empty or
whitespace-only field — answers 401 with the authentication challenge for
every request, regardless of the Authorization header, leaving the
rate-limit bucket untouched: never a pass-through and never any other
outcome. -/
theorem C2_unconfigured_tenant_always_401 :
    ∀ (request : Req) (subdomain : String) (expected : JSVal) (now : Nat)
      (b : Bucket),
      ((∃ u p : String, expected = .obj (.str u) (.str p) ∧
          (jsTrim u = "" ∨ jsTrim p = "")) ∨
       expected = .arr [] ∨
       (∃ (entries : List (String × String)) (e : String × String),
          expected = .arr entries ∧ e ∈ entries ∧
            (jsTrim e.1 = "" ∨ jsTrim e.2 = ""))) →
      authorizeProtectedSubdomain request subdomain expected now b =
        (some (respond "Not authorized" 401 authChallengeHeaders), b) := by
  intro request subdomain expected now b h
  have hval : hasValidCredentials expected = false := by
    rcases h with ⟨u, p, rfl, hup⟩ | rfl | ⟨entries, e, rfl, he, hbad⟩
    · rcases hup with h1 | h1 <;> simp [hasValidCredentials, isNonEmpty, h1]
    · simp [hasValidCredentials]
    · have hfe : (isNonEmpty (.str e.1) && isNonEmpty (.str e.2)) = false := by
        rcases hbad with h1 | h1 <;> simp [isNonEmpty, h1]
      have hall : entries.all
          (fun q => isNonEmpty (.str q.1) && isNonEmpty (.str q.2)) = false := by
        cases hac : entries.all
            (fun q => isNonEmpty (.str q.1) && isNonEmpty (.str q.2)) with
        | false => rfl
        | true =>
          have := List.all_eq_true.mp hac e he
          rw [hfe] at this
          exact Bool.noConfusion this
      simp [hasValidCredentials, hall]
  rw [authorizeProtectedSubdomain, hval]
  rfl

/-- Witness for claim C2 at concrete inputs: a tenant whose single-pair
user is whitespace-only is refused even with that exact pair presented. -/
theorem C2_witness :
    authorizeProtectedSubdomain
      ⟨"https:", "secure.example.com", "/", "GET", some "Basic IDpwdw==",
        some "1.2.3.4"⟩
      "secure" (.obj (.str " ") (.str "pw")) 3 [] =
    (some (respond "Not authorized" 401 authChallengeHeaders), []) :=
  C2_unconfigured_tenant_always_401
    ⟨"https:", "secure.example.com", "/", "GET", some "Basic IDpwdw==",
      some "1.2.3.4"⟩
    "secure" (.obj (.str " ") (.str "pw")) 3 []
    (Or.inl ⟨" ", "pw", rfl, Or.inl (by decide)⟩)

/-- Claim C10 (code bug in its consequence): getCredentials falls back to
the global FALLBACK_USER / FALLBACK_PASS values whenever the per-tenant
variable is absent or falsy (for example the empty string), so setting a
tenant's credential variables to "" yields the fallback pair and the
tenant is not treated as misconfigured. The final conjunct evaluates the
composed code on exactly that scenario with the correct fallback
credentials presented: because checkBasicAuth receives the credential
object as its expectedUser parameter (claim C1), the request is still
refused with 401 and a failed attempt is recorded, where the repository's
tests expect the redirect to be reachable. -/
theorem C10_falsy_credentials_fall_back :
    (∀ (jsonUsers : String → Option (List (String × String)))
       (subdomain : String) (env : Env),
       jsTruthyOpt (env ("USERS_" ++ subdomainEnvKey subdomain)) = false →
       (env ("USER_" ++ subdomainEnvKey subdomain) = some "" ∨
        env ("USER_" ++ subdomainEnvKey subdomain) = none) →
       (env ("PASS_" ++ subdomainEnvKey subdomain) = some "" ∨
        env ("PASS_" ++ subdomainEnvKey subdomain) = none) →
       getCredentials jsonUsers subdomain env =
         .obj (jsValOfOpt (env "FALLBACK_USER"))
           (jsValOfOpt (env "FALLBACK_PASS"))) ∧
    getCredentials (fun _ => none) "single" envSingleEmptyCreds =
      .obj (.str "fallback") (.str "fallbackpw") ∧
    hasValidCredentials
      (getCredentials (fun _ => none) "single" envSingleEmptyCreds) = true ∧
    authorizeProtectedSubdomain
      ⟨"https:", "single.example.com", "/", "GET",
        some "Basic ZmFsbGJhY2s6ZmFsbGJhY2twdw==", some "9.9.9.9"⟩
      "single" (getCredentials (fun _ => none) "single" envSingleEmptyCreds)
      0 [] =
    (some (respond "Not authorized" 401 authChallengeHeaders),
      [("9.9.9.9::single", ⟨1, RATE_LIMIT_WINDOW_MS⟩)]) := by
  have htn : jsTruthyOpt none = false := rfl
  have hte : jsTruthyOpt (some "") = false := rfl
  refine ⟨?_, by decide, by decide, by decide⟩
  intro jsonUsers subdomain env h0 h1 h2
  rcases h1 with h1 | h1 <;> rcases h2 with h2 | h2 <;>
    simp [getCredentials, jsOr, h0, h1, h2, htn, hte]

/-- Witness for claim C10 at concrete inputs. -/
theorem C10_witness :
    getCredentials (fun _ => none) "single" envSingleEmptyCreds =
      .obj (jsValOfOpt (envSingleEmptyCreds "FALLBACK_USER"))
        (jsValOfOpt (envSingleEmptyCreds "FALLBACK_PASS")) :=
  C10_falsy_credentials_fall_back.1 (fun _ => none) "single" envSingleEmptyCreds
    (by decide) (Or.inl (by decide)) (Or.inl (by decide))

theorem getCachedConfig_miss (toAscii : String → Option String)
    (a p : String) (st : ConfigState)
    (h : st.configCache = none ∨
      st.lastConfigHash ≠ some (getConfigHash a p)) :
    getCachedConfig toAscii a p st =
      (parseConfig toAscii a p,
        ⟨some (parseConfig toAscii a p), some (getConfigHash a p)⟩) := by
  rw [getCachedConfig, if_pos h]

theorem getCachedConfig_hit (toAscii : String → Option String)
    (a p : String) (c : CachedConfig) (st : ConfigState)
    (h1 : st.configCache = some c)
    (h2 : st.lastConfigHash = some (getConfigHash a p)) :
    getCachedConfig toAscii a p st = (c, st) := by
  rw [getCachedConfig, if_neg]
  · rw [h1]
    rfl
  · intro hcon
    rcases hcon with hcon | hcon
    · rw [h1] at hcon
      exact Option.noConfusion hcon
    · exact hcon h2

theorem getCachedConfig_state (toAscii : String → Option String)
    (a p : String) (st : ConfigState) :
    (getCachedConfig toAscii a p st).2 =
      ⟨some (getCachedConfig toAscii a p st).1, some (getConfigHash a p)⟩ := by
  by_cases h : st.configCache = none ∨
      st.lastConfigHash ≠ some (getConfigHash a p)
  · rw [getCachedConfig_miss toAscii a p st h]
  · push_neg at h
    obtain ⟨h1, h2⟩ := h
    obtain ⟨cc, lh⟩ := st
    cases hc : cc with
    | none => exact absurd hc h1
    | some c =>
      subst hc
      rw [getCachedConfig_hit toAscii a p c ⟨some c, lh⟩ rfl h2]
      have h2' : lh = some (getConfigHash a p) := h2
      rw [h2']

/-- Claim C4 (corrected): getCachedConfig memoizes soundly up to hash
collisions — a repeated call with identical raw strings returns the stored
value and leaves the state unchanged; a call whose raw strings hash
differently from the cached hash yields a freshly parsed configuration
equal to parsing the new strings directly; and invalidateConfigCache
forces re-parsing on the next call. -/
theorem C4_config_cache_memoization :
    (∀ (toAscii : String → Option String) (a p : String) (st : ConfigState),
      getCachedConfig toAscii a p (getCachedConfig toAscii a p st).2 =
        ((getCachedConfig toAscii a p st).1,
          (getCachedConfig toAscii a p st).2)) ∧
    (∀ (toAscii : String → Option String) (a p a2 p2 : String)
      (st : ConfigState),
      getConfigHash a2 p2 ≠ getConfigHash a p →
      (getCachedConfig toAscii a2 p2 (getCachedConfig toAscii a p st).2).1 =
        parseConfig toAscii a2 p2) ∧
    (∀ (toAscii : String → Option String) (a p : String),
      (getCachedConfig toAscii a p invalidateConfigCache).1 =
        parseConfig toAscii a p) := by
  refine ⟨?_, ?_, ?_⟩
  · intro toAscii a p st
    rw [getCachedConfig_state toAscii a p st]
    exact getCachedConfig_hit toAscii a p
      (getCachedConfig toAscii a p st).1 _ rfl rfl
  · intro toAscii a p a2 p2 st hne
    rw [getCachedConfig_state toAscii a p st]
    rw [getCachedConfig_miss toAscii a2 p2 _ ?_]
    right
    intro hcon
    rw [Option.some.injEq] at hcon
    exact hne hcon.symm
  · intro toAscii a p
    rw [getCachedConfig_miss toAscii a p invalidateConfigCache (Or.inl rfl)]

/-- Witness for claim C4 at concrete inputs. -/
theorem C4_witness :
    getCachedConfig (fun _ => none) "a" "b"
      (getCachedConfig (fun _ => none) "a" "b" invalidateConfigCache).2 =
      ((getCachedConfig (fun _ => none) "a" "b" invalidateConfigCache).1,
        (getCachedConfig (fun _ => none) "a" "b" invalidateConfigCache).2) ∧
    (getCachedConfig (fun _ => none) "b" ""
      (getCachedConfig (fun _ => none) "a" "" invalidateConfigCache).2).1 =
      parseConfig (fun _ => none) "b" "" :=
  ⟨C4_config_cache_memoization.1 (fun _ => none) "a" "b" invalidateConfigCache,
   C4_config_cache_memoization.2.1 (fun _ => none) "a" "" "b" ""
     invalidateConfigCache (by decide)⟩

/-- Claim C4 counterexample: changing ALLOWED_HOST_SUFFIXES from "Aa" to
"BB" changes the raw string but collides in the 31-based rolling hash, so
the second call returns the stale cached parse of "Aa" instead of a fresh
parse of "BB". The inputs are all-ASCII, so the punycode parameter is
never consulted. -/
theorem C4_counterexample :
    getConfigHash "Aa" "" = getConfigHash "BB" "" ∧
    (getCachedConfig (fun _ => none) "BB" ""
      (getCachedConfig (fun _ => none) "Aa" "" invalidateConfigCache).2).1 ≠
      parseConfig (fun _ => none) "BB" "" ∧
    (getCachedConfig (fun _ => none) "BB" ""
      (getCachedConfig (fun _ => none) "Aa" "" invalidateConfigCache).2).1 =
      parseConfig (fun _ => none) "Aa" "" :=
  ⟨by decide, by decide, by decide⟩

theorem dot_append_data (m : String) : ("." ++ m).data = '.' :: m.data := by
  cases m with
  | mk d => rfl

theorem infix_map (f : Char → Char) {pat l : List Char} (h : pat <:+: l) :
    pat.map f <:+: l.map f := by
  obtain ⟨s, t, rfl⟩ := h
  exact ⟨s.map f, t.map f, by simp⟩

theorem infix_dropWhile {p : Char → Bool} {pat : List Char} (hne : pat ≠ [])
    (hpat : ∀ c ∈ pat, p c = false) :
    ∀ {l : List Char}, pat <:+: l → pat <:+: l.dropWhile p := by
  intro l
  induction l with
  | nil =>
    intro h
    exact absurd (List.eq_nil_of_infix_nil h) hne
  | cons c l2 ih =>
    intro h
    by_cases hc : p c = true
    · rw [List.dropWhile_cons_of_pos hc]
      rcases List.infix_cons_iff.mp h with hpre | hinf
      · cases pat with
        | nil => exact absurd rfl hne
        | cons p0 pt =>
          have hp0c := (List.cons_prefix_cons.mp hpre).1
          have hp0 := hpat p0 (by simp)
          rw [hp0c, hc] at hp0
          exact Bool.noConfusion hp0
      · exact ih hinf
    · rw [List.dropWhile_cons_of_neg hc]
      exact h

theorem infix_trimChars {pat : List Char} (hne : pat ≠ [])
    (hpat : ∀ c ∈ pat, c.isWhitespace = false) {l : List Char}
    (h : pat <:+: l) :
    pat <:+: ((l.dropWhile Char.isWhitespace).reverse.dropWhile
      Char.isWhitespace).reverse := by
  have h1 : pat <:+: l.dropWhile Char.isWhitespace := infix_dropWhile hne hpat h
  have h2 : pat.reverse <:+: (l.dropWhile Char.isWhitespace).reverse :=
    List.reverse_infix.mpr h1
  have hne2 : pat.reverse ≠ [] := by simpa using hne
  have hpat2 : ∀ c ∈ pat.reverse, c.isWhitespace = false := by
    intro c hc
    exact hpat c (List.mem_reverse.mp hc)
  have h3 := infix_dropWhile hne2 hpat2 h2
  have h4 := List.reverse_infix.mpr h3
  simpa using h4

theorem infix_jsTrim {pat : List Char} (hne : pat ≠ [])
    (hpat : ∀ c ∈ pat, c.isWhitespace = false) {s : String}
    (h : pat <:+: s.data) : pat <:+: (jsTrim s).data :=
  infix_trimChars hne hpat h

theorem listHasSub_of_infix {pat l : List Char} (h : pat <:+: l) :
    listHasSub pat l = true := by
  induction l with
  | nil =>
    have hn := List.eq_nil_of_infix_nil h
    subst hn
    rfl
  | cons c l2 ih =>
    rcases List.infix_cons_iff.mp h with hpre | hinf
    · rw [listHasSub, List.isPrefixOf_iff_prefix.mpr hpre, Bool.true_or]
    · rw [listHasSub, ih hinf, Bool.or_true]

theorem single_suffix_getLast {l : List Char} {c : Char}
    (h : l.getLast? = some c) : [c].isSuffixOf l = true := by
  rw [List.isSuffixOf_iff_suffix]
  exact ⟨l.dropLast, List.dropLast_append_getLast? c h⟩

theorem getLast_of_single_suffix {l : List Char} {c : Char}
    (h : [c].isSuffixOf l = true) : l.getLast? = some c := by
  rw [List.isSuffixOf_iff_suffix] at h
  obtain ⟨t, rfl⟩ := h
  rw [List.getLast?_append]
  rfl

theorem string_mk_data (s : String) : String.mk s.data = s := by
  cases s
  rfl

theorem splitDotChars_ne_nil (l : List Char) : splitDotChars l ≠ [] := by
  cases l with
  | nil => exact fun h => List.noConfusion h
  | cons c rest =>
    simp only [splitDotChars]
    by_cases hc : c = '.'
    · rw [if_pos hc]
      exact fun h => List.noConfusion h
    · rw [if_neg hc]
      cases hr : splitDotChars rest with
      | nil => exact fun h => List.noConfusion h
      | cons h t => exact fun hh => List.noConfusion hh

theorem mem_splitDotChars :
    ∀ (l : List Char), ∀ p ∈ splitDotChars l, ∀ c ∈ p, c ∈ l := by
  intro l
  induction l with
  | nil =>
    intro p hp c hc
    simp only [splitDotChars, List.mem_singleton] at hp
    subst hp
    exact absurd hc (List.not_mem_nil c)
  | cons a rest ih =>
    intro p hp c hc
    simp only [splitDotChars] at hp
    by_cases ha : a = '.'
    · rw [if_pos ha] at hp
      rcases List.mem_cons.mp hp with rfl | hp2
      · exact absurd hc (List.not_mem_nil c)
      · exact List.mem_cons_of_mem a (ih p hp2 c hc)
    · rw [if_neg ha] at hp
      cases hr : splitDotChars rest with
      | nil => exact absurd hr (splitDotChars_ne_nil rest)
      | cons h t =>
        rw [hr] at hp
        rcases List.mem_cons.mp hp with rfl | hp2
        · rcases List.mem_cons.mp hc with rfl | hc2
          · exact List.mem_cons_self _ _
          · have hmem : h ∈ splitDotChars rest := by
              rw [hr]
              exact List.mem_cons_self h t
            exact List.mem_cons_of_mem a (ih h hmem c hc2)
        · have hmem : p ∈ splitDotChars rest := by
            rw [hr]
            exact List.mem_cons_of_mem h hp2
          exact List.mem_cons_of_mem a (ih p hmem c hc)

theorem joinDot_splitDotChars (l : List Char) :
    joinDot (splitDotChars l) = l := by
  induction l with
  | nil => rfl
  | cons a rest ih =>
    simp only [splitDotChars]
    by_cases ha : a = '.'
    · rw [if_pos ha]
      cases hr : splitDotChars rest with
      | nil => exact absurd hr (splitDotChars_ne_nil rest)
      | cons h t =>
        simp only [joinDot]
        rw [← hr, ih, ha]
        rfl
    · rw [if_neg ha]
      cases hr : splitDotChars rest with
      | nil => exact absurd hr (splitDotChars_ne_nil rest)
      | cons h t =>
        show joinDot ((a :: h) :: t) = a :: rest
        cases t with
        | nil =>
          simp only [joinDot]
          rw [hr] at ih
          simp only [joinDot] at ih
          rw [ih]
        | cons q t2 =>
          simp only [joinDot]
          rw [hr] at ih
          simp only [joinDot] at ih
          rw [List.cons_append, ih]

theorem punycodeLabel_ascii (toAscii : String → Option String)
    (p : List Char) (h : ∀ c ∈ p, c.toNat ≤ 127) :
    punycodeLabel toAscii (String.mk p) = some (String.mk p) := by
  rw [punycodeLabel]
  by_cases hp : String.mk p = ""
  · rw [if_pos hp]
  · rw [if_neg hp, if_neg]
    intro hcon
    obtain ⟨c, hc, hlt⟩ := List.any_eq_true.mp hcon
    have h2 := h c hc
    simp only [decide_eq_true_eq] at hlt
    omega

theorem mapPunyLabels_ascii (toAscii : String → Option String) :
    ∀ ps : List (List Char), (∀ p ∈ ps, ∀ c ∈ p, c.toNat ≤ 127) →
      mapPunyLabels toAscii ps = some ps := by
  intro ps
  induction ps with
  | nil => intro _; rfl
  | cons p rest ih =>
    intro h
    have h2 := ih (fun q hq c hc => h q (List.mem_cons_of_mem p hq) c hc)
    rw [mapPunyLabels, punycodeLabel_ascii toAscii p
      (h p (List.mem_cons_self p rest)), h2]

theorem punycodeConvert_ascii (toAscii : String → Option String) (s : String)
    (h : ∀ c ∈ s.data, c.toNat ≤ 127) :
    punycodeConvert toAscii s = some s := by
  rw [punycodeConvert]
  rw [mapPunyLabels_ascii toAscii (splitDotChars s.data)
    (fun p hp c hc => h c (mem_splitDotChars s.data p hp c hc))]
  rw [Option.map_some']
  rw [joinDot_splitDotChars, string_mk_data]

theorem validateAndNormalizeSuffix_eq_of_convert
    (toAscii : String → Option String) (s n2 : String)
    (hs : ¬ s = "") (hn : ¬ jsToLower (jsTrim s) = "")
    (hcolon : (jsToLower (jsTrim s)).data.contains ':' = false)
    (hc : punycodeConvert toAscii (jsToLower (jsTrim s)) = some n2) :
    validateAndNormalizeSuffix toAscii s =
      if strHasSub n2 ".." || strHasSub n2 ".-" || strHasSub n2 "-." then
        none
      else if (n2.data.all (fun c => c = '.' ∨ c = '-' ∨
          ('a' ≤ c ∧ c ≤ 'z') ∨ ('0' ≤ c ∧ c ≤ '9'))) = false then
        none
      else if jsStartsWith (if jsStartsWith n2 "." then n2 else "." ++ n2)
            ".-" ||
          jsEndsWith (if jsStartsWith n2 "." then n2 else "." ++ n2) "-." ||
          jsEndsWith (if jsStartsWith n2 "." then n2 else "." ++ n2) "." then
        none
      else some (if jsStartsWith n2 "." then n2 else "." ++ n2) := by
  simp only [validateAndNormalizeSuffix]
  rw [if_neg hs, if_neg hn, if_neg (show
    ¬ ((jsToLower (jsTrim s)).data.contains ':' = true) from by
      rw [hcolon]; exact Bool.noConfusion), hc]

/-- Claim C5 (amended): for every per-label punycode conversion toAscii
supplied by the platform, validateAndNormalizeSuffix rejects every input
that is empty after trimming; for inputs whose trimmed, lowered form is
all ASCII — where the conversion loop is the identity — and colon-free it
rejects those containing a "..", ".-" or "-." sequence, those with a
character outside the permitted set [a-z0-9.-], and those ending in a
bare trailing dot after normalization (a bare trailing hyphen, however,
is accepted, and an input with non-ASCII labels is converted before these
checks and can be accepted — see the counterexample); an input whose
trimmed, lowered form contains a colon is rejected exactly when it is not
wrapped in brackets, its bracketed content not being validated further;
"EXAMPLE.COM" normalizes to ".example.com"; "[2001:db8::1]" passes
through unchanged; "2001:db8::1" is rejected; and every accepted
colon-free result starts with a leading dot. -/
theorem C5_validateAndNormalizeSuffix_behavior :
    (∀ (toAscii : String → Option String) (s : String),
      jsTrim s = "" → validateAndNormalizeSuffix toAscii s = none) ∧
    (∀ (toAscii : String → Option String) (s : String),
      (∀ c ∈ (jsToLower (jsTrim s)).data, c.toNat ≤ 127) →
      (jsToLower (jsTrim s)).data.contains ':' = false →
      (['.', '.'] <:+: s.data ∨ ['.', '-'] <:+: s.data ∨
        ['-', '.'] <:+: s.data) →
      validateAndNormalizeSuffix toAscii s = none) ∧
    (∀ (toAscii : String → Option String) (s : String),
      (∀ c ∈ (jsToLower (jsTrim s)).data, c.toNat ≤ 127) →
      (jsToLower (jsTrim s)).data.contains ':' = false →
      (∃ c ∈ (jsToLower (jsTrim s)).data,
        ¬(c = '.' ∨ c = '-' ∨ ('a' ≤ c ∧ c ≤ 'z') ∨ ('0' ≤ c ∧ c ≤ '9'))) →
      validateAndNormalizeSuffix toAscii s = none) ∧
    (∀ (toAscii : String → Option String) (s : String),
      (jsToLower (jsTrim s)).data.contains ':' = true →
      (jsStartsWith (jsToLower (jsTrim s)) "[" &&
        jsEndsWith (jsToLower (jsTrim s)) "]") = false →
      validateAndNormalizeSuffix toAscii s = none) ∧
    (∀ (toAscii : String → Option String) (s : String),
      (∀ c ∈ (jsToLower (jsTrim s)).data, c.toNat ≤ 127) →
      (jsToLower (jsTrim s)).data.getLast? = some '.' →
      validateAndNormalizeSuffix toAscii s = none) ∧
    (∀ toAscii : String → Option String,
      validateAndNormalizeSuffix toAscii "EXAMPLE.COM" =
        some ".example.com") ∧
    (∀ toAscii : String → Option String,
      validateAndNormalizeSuffix toAscii "[2001:db8::1]" =
        some "[2001:db8::1]") ∧
    (∀ toAscii : String → Option String,
      validateAndNormalizeSuffix toAscii "2001:db8::1" = none) ∧
    (∀ (toAscii : String → Option String) (s r : String),
      validateAndNormalizeSuffix toAscii s = some r →
      r.data.contains ':' = false → jsStartsWith r "." = true) := by
  refine ⟨?_, ?_, ?_, ?_, ?_, ?_, ?_, ?_, ?_⟩
  · intro toAscii s h
    by_cases hs : s = ""
    · rw [hs]
      rfl
    · have hn : jsToLower (jsTrim s) = "" := by
        rw [h]
        rfl
      simp only [validateAndNormalizeSuffix]
      rw [if_neg hs, if_pos hn]
  · intro toAscii s hascii hcolon hinf
    by_cases hs : s = ""
    · rw [hs]
      rfl
    · by_cases hn : jsToLower (jsTrim s) = ""
      · simp only [validateAndNormalizeSuffix]
        rw [if_neg hs, if_pos hn]
      · rw [validateAndNormalizeSuffix_eq_of_convert toAscii s
          (jsToLower (jsTrim s)) hs hn hcolon
          (punycodeConvert_ascii toAscii (jsToLower (jsTrim s)) hascii)]
        have hsub : (strHasSub (jsToLower (jsTrim s)) ".." ||
            strHasSub (jsToLower (jsTrim s)) ".-" ||
            strHasSub (jsToLower (jsTrim s)) "-.") = true := by
          have htr : ∀ pat : List Char, pat = ['.', '.'] ∨ pat = ['.', '-'] ∨
              pat = ['-', '.'] → pat <:+: s.data →
              pat <:+: (jsToLower (jsTrim s)).data := by
            intro pat hp hpi
            have hne : pat ≠ [] := by
              rcases hp with rfl | rfl | rfl <;> decide
            have hws : ∀ c ∈ pat, c.isWhitespace = false := by
              rcases hp with rfl | rfl | rfl <;> decide
            have h1 := infix_jsTrim hne hws hpi
            have h2 := infix_map asciiLowerChar h1
            have hfix : pat.map asciiLowerChar = pat := by
              rcases hp with rfl | rfl | rfl <;> decide
            rw [hfix] at h2
            exact h2
          rcases hinf with hi | hi | hi
          · have h1 : strHasSub (jsToLower (jsTrim s)) ".." = true := by
              rw [strHasSub, show (".." : String).data = ['.', '.'] from
                by decide]
              exact listHasSub_of_infix (htr ['.', '.'] (Or.inl rfl) hi)
            rw [h1, Bool.true_or, Bool.true_or]
          · have h1 : strHasSub (jsToLower (jsTrim s)) ".-" = true := by
              rw [strHasSub, show (".-" : String).data = ['.', '-'] from
                by decide]
              exact listHasSub_of_infix
                (htr ['.', '-'] (Or.inr (Or.inl rfl)) hi)
            rw [h1, Bool.or_true, Bool.true_or]
          · have h1 : strHasSub (jsToLower (jsTrim s)) "-." = true := by
              rw [strHasSub, show ("-." : String).data = ['-', '.'] from
                by decide]
              exact listHasSub_of_infix
                (htr ['-', '.'] (Or.inr (Or.inr rfl)) hi)
            rw [h1, Bool.or_true]
        rw [if_pos hsub]
  · intro toAscii s hascii hcolon hbad
    by_cases hs : s = ""
    · rw [hs]
      rfl
    · by_cases hn : jsToLower (jsTrim s) = ""
      · simp only [validateAndNormalizeSuffix]
        rw [if_neg hs, if_pos hn]
      · rw [validateAndNormalizeSuffix_eq_of_convert toAscii s
          (jsToLower (jsTrim s)) hs hn hcolon
          (punycodeConvert_ascii toAscii (jsToLower (jsTrim s)) hascii)]
        by_cases hsub : (strHasSub (jsToLower (jsTrim s)) ".." ||
            strHasSub (jsToLower (jsTrim s)) ".-" ||
            strHasSub (jsToLower (jsTrim s)) "-.") = true
        · rw [if_pos hsub]
        · rw [if_neg hsub]
          have hall : ((jsToLower (jsTrim s)).data.all (fun c =>
              decide (c = '.' ∨ c = '-' ∨ ('a' ≤ c ∧ c ≤ 'z') ∨
                ('0' ≤ c ∧ c ≤ '9')))) = false := by
            obtain ⟨c, hc, hcbad⟩ := hbad
            cases hac : ((jsToLower (jsTrim s)).data.all (fun c =>
                decide (c = '.' ∨ c = '-' ∨ ('a' ≤ c ∧ c ≤ 'z') ∨
                  ('0' ≤ c ∧ c ≤ '9')))) with
            | false => rfl
            | true =>
              have := List.all_eq_true.mp hac c hc
              exact absurd (of_decide_eq_true this) hcbad
          rw [if_pos hall]
  · intro toAscii s hcolon hbr
    by_cases hs : s = ""
    · rw [hs]
      rfl
    · simp only [validateAndNormalizeSuffix]
      rw [if_neg hs]
      by_cases hn : jsToLower (jsTrim s) = ""
      · rw [if_pos hn]
      · rw [if_neg hn, if_pos hcolon, if_neg (by rw [hbr]; exact Bool.noConfusion)]
  · intro toAscii s hascii hlast
    by_cases hs : s = ""
    · rw [hs]
      rfl
    · by_cases hn : jsToLower (jsTrim s) = ""
      · simp only [validateAndNormalizeSuffix]
        rw [if_neg hs, if_pos hn]
      · by_cases hcolon : ((jsToLower (jsTrim s)).data.contains ':') = true
        · simp only [validateAndNormalizeSuffix]
          rw [if_neg hs, if_neg hn, if_pos hcolon]
          have hend : jsEndsWith (jsToLower (jsTrim s)) "]" = false := by
            cases hb : jsEndsWith (jsToLower (jsTrim s)) "]" with
            | false => rfl
            | true =>
              have := getLast_of_single_suffix (l := (jsToLower (jsTrim s)).data)
                (c := ']') hb
              rw [hlast] at this
              exact absurd (Option.some.inj this) (by decide)
          rw [if_neg]
          intro hcon
          rw [hend, Bool.and_false] at hcon
          exact Bool.noConfusion hcon
        · have hcolonf : ((jsToLower (jsTrim s)).data.contains ':') = false := by
            cases hb : ((jsToLower (jsTrim s)).data.contains ':') with
            | false => rfl
            | true => exact absurd hb hcolon
          rw [validateAndNormalizeSuffix_eq_of_convert toAscii s
            (jsToLower (jsTrim s)) hs hn hcolonf
            (punycodeConvert_ascii toAscii (jsToLower (jsTrim s)) hascii)]
          by_cases hsub : (strHasSub (jsToLower (jsTrim s)) ".." ||
              strHasSub (jsToLower (jsTrim s)) ".-" ||
              strHasSub (jsToLower (jsTrim s)) "-.") = true
          · rw [if_pos hsub]
          · rw [if_neg hsub]
            by_cases hall : ((jsToLower (jsTrim s)).data.all (fun c =>
                decide (c = '.' ∨ c = '-' ∨ ('a' ≤ c ∧ c ≤ 'z') ∨
                  ('0' ≤ c ∧ c ≤ '9')))) = false
            · rw [if_pos hall]
            · rw [if_neg hall]
              by_cases hst : jsStartsWith (jsToLower (jsTrim s)) "." = true
              · rw [if_pos hst]
                have h3 : jsEndsWith (jsToLower (jsTrim s)) "." = true := by
                  rw [jsEndsWith, show ("." : String).data = ['.'] from
                    by decide]
                  exact single_suffix_getLast hlast
                rw [h3, Bool.or_true, if_pos rfl]
              · rw [if_neg hst]
                have h3 : jsEndsWith ("." ++ jsToLower (jsTrim s)) "." =
                    true := by
                  rw [jsEndsWith, show ("." : String).data = ['.'] from
                    by decide]
                  apply single_suffix_getLast
                  rw [dot_append_data]
                  cases hdd : (jsToLower (jsTrim s)).data with
                  | nil => exact absurd (congrArg String.mk hdd) hn
                  | cons c0 rest =>
                    rw [List.getLast?_cons_cons]
                    rw [hdd] at hlast
                    exact hlast
                rw [h3, Bool.or_true, if_pos rfl]
  · intro toAscii
    rfl
  · intro toAscii
    rfl
  · intro toAscii
    rfl
  · intro toAscii s r hv hr
    by_cases hs : s = ""
    · rw [hs] at hv
      simp only [validateAndNormalizeSuffix] at hv
      rw [if_pos trivial] at hv
      exact Option.noConfusion hv
    · by_cases hn : jsToLower (jsTrim s) = ""
      · simp only [validateAndNormalizeSuffix] at hv
        rw [if_neg hs, if_pos hn] at hv
        exact Option.noConfusion hv
      · by_cases hcolon : ((jsToLower (jsTrim s)).data.contains ':') = true
        · simp only [validateAndNormalizeSuffix] at hv
          rw [if_neg hs, if_neg hn, if_pos hcolon] at hv
          by_cases hbr : (jsStartsWith (jsToLower (jsTrim s)) "[" &&
              jsEndsWith (jsToLower (jsTrim s)) "]") = true
          · rw [if_pos hbr] at hv
            rw [← Option.some.inj hv] at hr
            rw [hcolon] at hr
            exact Bool.noConfusion hr
          · rw [if_neg hbr] at hv
            exact Option.noConfusion hv
        · have hcolonf : ((jsToLower (jsTrim s)).data.contains ':') = false := by
            cases hb : ((jsToLower (jsTrim s)).data.contains ':') with
            | false => rfl
            | true => exact absurd hb hcolon
          cases hpc : punycodeConvert toAscii (jsToLower (jsTrim s)) with
          | none =>
            simp only [validateAndNormalizeSuffix] at hv
            rw [if_neg hs, if_neg hn, if_neg (show
              ¬ ((jsToLower (jsTrim s)).data.contains ':' = true) from by
                rw [hcolonf]; exact Bool.noConfusion), hpc] at hv
            exact Option.noConfusion hv
          | some np =>
            rw [validateAndNormalizeSuffix_eq_of_convert toAscii s np
              hs hn hcolonf hpc] at hv
            by_cases hsub : (strHasSub np ".." || strHasSub np ".-" ||
                strHasSub np "-.") = true
            · rw [if_pos hsub] at hv
              exact Option.noConfusion hv
            · rw [if_neg hsub] at hv
              by_cases hall : (np.data.all (fun c =>
                  decide (c = '.' ∨ c = '-' ∨ ('a' ≤ c ∧ c ≤ 'z') ∨
                    ('0' ≤ c ∧ c ≤ '9')))) = false
              · rw [if_pos hall] at hv
                exact Option.noConfusion hv
              · rw [if_neg hall] at hv
                by_cases hst : jsStartsWith np "." = true
                · rw [if_pos hst] at hv
                  by_cases hfin : (jsStartsWith np ".-" ||
                      jsEndsWith np "-." || jsEndsWith np ".") = true
                  · rw [if_pos hfin] at hv
                    exact Option.noConfusion hv
                  · rw [if_neg hfin] at hv
                    rw [← Option.some.inj hv]
                    exact hst
                · rw [if_neg hst] at hv
                  by_cases hfin : (jsStartsWith ("." ++ np) ".-" ||
                      jsEndsWith ("." ++ np) "-." ||
                      jsEndsWith ("." ++ np) ".") = true
                  · rw [if_pos hfin] at hv
                    exact Option.noConfusion hv
                  · rw [if_neg hfin] at hv
                    rw [← Option.some.inj hv]
                    rw [jsStartsWith, dot_append_data,
                      show ("." : String).data = ['.'] from by decide]
                    simp [List.isPrefixOf]

/-- Witness for claim C5 at concrete inputs, discharging each hypothesis
of the conditional parts with a concrete conversion function. -/
theorem C5_witness :
    validateAndNormalizeSuffix (fun _ => none) "   " = none ∧
    validateAndNormalizeSuffix (fun _ => none) "example..com" = none ∧
    validateAndNormalizeSuffix (fun _ => none) "exam_ple.com" = none ∧
    validateAndNormalizeSuffix (fun _ => none) "2001:db8:1" = none ∧
    validateAndNormalizeSuffix (fun _ => none) "example.com." = none ∧
    jsStartsWith ".example.com" "." = true := by
  refine ⟨?_, ?_, ?_, ?_, ?_, ?_⟩
  · exact C5_validateAndNormalizeSuffix_behavior.1 (fun _ => none) "   "
      (by decide)
  · exact C5_validateAndNormalizeSuffix_behavior.2.1 (fun _ => none)
      "example..com" (by decide) (by decide)
      (Or.inl ⟨"example".data, "com".data, by decide⟩)
  · exact C5_validateAndNormalizeSuffix_behavior.2.2.1 (fun _ => none)
      "exam_ple.com" (by decide) (by decide) ⟨'_', by decide, by decide⟩
  · exact C5_validateAndNormalizeSuffix_behavior.2.2.2.1 (fun _ => none)
      "2001:db8:1" (by decide) (by decide)
  · exact C5_validateAndNormalizeSuffix_behavior.2.2.2.2.1 (fun _ => none)
      "example.com." (by decide) (by decide)
  · exact C5_validateAndNormalizeSuffix_behavior.2.2.2.2.2.2.2.2
      (fun _ => none) "EXAMPLE.COM" ".example.com" (by decide) (by decide)

/-- Claim C5 counterexample: the source checks endsWith("-.") where the
claim expects a bare trailing hyphen to be rejected, so "example.com-" is
accepted; a bracketed value containing a colon bypasses every content
check, so "[a..:]" is accepted although it contains ".."; and a non-ASCII
label is converted through the platform URL parser before the content
checks rather than rejected, so "münchen.de" is accepted as its punycode
form. -/
theorem C5_counterexample :
    validateAndNormalizeSuffix (fun _ => none) "example.com-" =
      some ".example.com-" ∧
    validateAndNormalizeSuffix (fun _ => none) "[a..:]" = some "[a..:]" ∧
    strHasSub "[a..:]" ".." = true ∧
    validateAndNormalizeSuffix urlToAsciiSample "münchen.de" =
      some ".xn--mnchen-3ya.de" :=
  ⟨by decide, by decide, by decide, by decide⟩

/-- Claim C9: a request whose extracted subdomain is protected but has no
configured redirect target is answered 404 Not found with the plain
security headers — the rate-limit bucket is returned unchanged, the result
is identical for any credential bindings, Authorization header, client IP
and clock, so credentials are never resolved and the rate limiter is never
consulted, and no WWW-Authenticate challenge is emitted. -/
theorem C9_protected_without_target_404 :
    ∀ (toAscii : String → Option String)
      (jsonUsers jsonUsers2 : String → Option (List (String × String)))
      (request : Req) (auth2 ip2 : Option String) (env : Env)
      (cst : ConfigState) (b : Bucket) (now now2 : Nat),
      request.protocol ≠ "http:" →
      validateMethod request.method = none →
      hostIsAllowed (jsToLower request.hostname)
        (getCachedConfig toAscii ((env "ALLOWED_HOST_SUFFIXES").getD "")
          ((env "PROTECTED_SUBDOMAINS").getD "") cst).1.allowedHostSuffixes
        = true →
      (getCachedConfig toAscii ((env "ALLOWED_HOST_SUFFIXES").getD "")
          ((env "PROTECTED_SUBDOMAINS").getD "") cst).1.protectedSubdomains.contains
        (extractSubdomain (jsToLower request.hostname)
          (getCachedConfig toAscii ((env "ALLOWED_HOST_SUFFIXES").getD "")
            ((env "PROTECTED_SUBDOMAINS").getD "") cst).1.allowedHostSuffixes)
        = true →
      jsTruthyOpt (getRedirectTarget
        (extractSubdomain (jsToLower request.hostname)
          (getCachedConfig toAscii ((env "ALLOWED_HOST_SUFFIXES").getD "")
            ((env "PROTECTED_SUBDOMAINS").getD "") cst).1.allowedHostSuffixes)
        env) = false →
      (fetchWorker toAscii jsonUsers request env cst b now =
        (respond "Not found" 404 (securityHeaders []),
          (getCachedConfig toAscii ((env "ALLOWED_HOST_SUFFIXES").getD "")
            ((env "PROTECTED_SUBDOMAINS").getD "") cst).2, b) ∧
       fetchWorker toAscii jsonUsers request env cst b now =
         fetchWorker toAscii jsonUsers2
           ⟨request.protocol, request.hostname, request.path, request.method,
             auth2, ip2⟩ env cst b now2 ∧
       ((fetchWorker toAscii jsonUsers request env cst b now).1.headers.all
         (fun kv => kv.1 != "WWW-Authenticate")) = true) := by
  intro toAscii jsonUsers jsonUsers2 request auth2 ip2 env cst b now now2
    hp hm hallow hprot htarget
  have main : ∀ (j : String → Option (List (String × String)))
      (auth ip : Option String) (n : Nat),
      fetchWorker toAscii j
        ⟨request.protocol, request.hostname, request.path, request.method,
          auth, ip⟩ env cst b n =
      (respond "Not found" 404 (securityHeaders []),
        (getCachedConfig toAscii ((env "ALLOWED_HOST_SUFFIXES").getD "")
          ((env "PROTECTED_SUBDOMAINS").getD "") cst).2, b) := by
    intro j auth ip n
    have hE : enforceHttps
        ⟨request.protocol, request.hostname, request.path, request.method,
          auth, ip⟩ = none := by
      rw [enforceHttps, if_neg hp]
    have hres : resolveSubdomain (jsToLower request.hostname)
        (getCachedConfig toAscii ((env "ALLOWED_HOST_SUFFIXES").getD "")
          ((env "PROTECTED_SUBDOMAINS").getD "") cst).1.allowedHostSuffixes =
        .ok (extractSubdomain (jsToLower request.hostname)
          (getCachedConfig toAscii ((env "ALLOWED_HOST_SUFFIXES").getD "")
            ((env "PROTECTED_SUBDOMAINS").getD "") cst).1.allowedHostSuffixes)
        := by
      rw [resolveSubdomain, if_neg]
      rw [hallow]
      exact Bool.noConfusion
    simp only [fetchWorker, hE, hm, hres]
    simp only [hprot, htarget, Bool.not_false, Bool.and_true]
    rfl
  have hreq : (⟨request.protocol, request.hostname, request.path,
      request.method, request.authorization, request.cfConnectingIp⟩ : Req) =
      request := by
    cases request
    rfl
  have h1 : fetchWorker toAscii jsonUsers request env cst b now =
      (respond "Not found" 404 (securityHeaders []),
        (getCachedConfig toAscii ((env "ALLOWED_HOST_SUFFIXES").getD "")
          ((env "PROTECTED_SUBDOMAINS").getD "") cst).2, b) := by
    rw [← hreq]
    exact main jsonUsers request.authorization request.cfConnectingIp now
  refine ⟨h1, ?_, ?_⟩
  · rw [h1, main jsonUsers2 auth2 ip2 now2]
  · rw [h1]
    show ((respond "Not found" 404 (securityHeaders [])).headers.all
      (fun kv => kv.1 != "WWW-Authenticate")) = true
    decide

/-- Witness for claim C9 at concrete inputs: the protected tenant
"missing" with no LINK_MISSING binding. -/
theorem C9_witness :
    fetchWorker (fun _ => none) (fun _ => none)
      ⟨"https:", "missing.example.com", "/", "GET", none, none⟩
      envC9 invalidateConfigCache [] 0 =
    (respond "Not found" 404 (securityHeaders []),
      (getCachedConfig (fun _ => none) ((envC9 "ALLOWED_HOST_SUFFIXES").getD "")
        ((envC9 "PROTECTED_SUBDOMAINS").getD "") invalidateConfigCache).2,
      []) :=
  (C9_protected_without_target_404 (fun _ => none) (fun _ => none) (fun _ => none)
    ⟨"https:", "missing.example.com", "/", "GET", none, none⟩ none none
    envC9 invalidateConfigCache [] 0 0
    (by decide) (by decide) (by decide) (by decide) (by decide)).1

end RedirectWorker
